import Mathlib

/-!
Shallow embedding of the workflow execution engine of the ai-workflow-builder
repository (TypeScript), together with proofs checking the engine's
natural-language specification against the code.

Embedded source files:
* `src/utils/workflowUtils.ts` — graph validation, cycle detection (DFS with an
  explicit recursion stack), topological ordering (Kahn's algorithm);
* `src/services/executionService.ts` — single-node execution: readiness
  validation, execution-context assembly, per-type handlers;
* `src/services/workflowExecutionService.ts` — the execution coordinator:
  full-workflow runs, progress/state tracking, stop and reset.

Modelling conventions:
* JavaScript strings are `String`, arrays are `List`, `undefined` is `none`.
* JavaScript objects used as string-keyed dictionaries are association lists
  with insert-or-update (`jsObjSet`) preserving first-insertion key order,
  matching JS object/Map key-iteration order.
* JS `Map` semantics: `Map.set` keeps the original key position on update;
  bulk construction from an entry list lets the last entry win.
* Machine numbers that only count (lengths, in-degrees) are `Int` where the
  source can drive them negative (Kahn's in-degree decrement), `Nat` otherwise.
* `Date` values are ticks of a logical clock threaded through the coordinator.
* The opaque LLM call (Gemini API / the local simulation) is an oracle
  parameter `GenOracle`: the engine treats it as an external pluggable
  handler, per the spec's scope.
* Recursive graph traversals (DFS, Kahn's queue loop) take explicit fuel; the
  fuel passed by the top-level wrappers dominates the source loops' iteration
  counts (each node enters the DFS at most once per unvisited state; each id is
  enqueued at most once by Kahn's algorithm), so the embedded functions compute
  the same results as the source's unbounded loops.
* Error-reporting side channels of the source (the `errorHandler` logging
  service and the `useErrorStore` UI store) only record diagnostics for the UI;
  they do not alter control flow or returned values and are not modelled.
-/

namespace WorkflowEngine

/-! ## JavaScript-style helpers -/

/-- JS `a || b` on strings: the empty string is falsy. -/
def jsOrStr (a b : String) : String := if a.isEmpty then b else a

/-- JS truthiness of an optional string (`undefined` and `""` are falsy). -/
def jsTruthyStr : Option String → Bool
  | none => false
  | some s => !s.isEmpty

/-- JS `s.trim()`: strip leading and trailing whitespace (`\\s` modelled by
`Char.isWhitespace`). -/
def strTrim (s : String) : String :=
  ⟨((s.toList.dropWhile Char.isWhitespace).reverse.dropWhile Char.isWhitespace).reverse⟩

/-- JS `s.startsWith(p)`. -/
def strStartsWith (s p : String) : Bool := p.toList.isPrefixOf s.toList

/-- Worker of `dedupFirst`: keep elements not yet `seen`, in order. -/
def dedupFirstGo (seen : List String) : List String → List String
  | [] => []
  | a :: l => if seen.contains a then dedupFirstGo seen l else a :: dedupFirstGo (a :: seen) l

/-- First-occurrence deduplication: the key order of a JS `Map`/object built by
repeated `set`, where updating an existing key keeps its position. -/
def dedupFirst (l : List String) : List String := dedupFirstGo [] l

/-- Insert-or-update into a JS object / Map viewed as an association list:
an existing key keeps its position and gets the new value, a new key is
appended. -/
def jsObjSet (l : List (String × α)) (k : String) (v : α) : List (String × α) :=
  if l.any (fun p => p.1 = k) then
    l.map (fun p => if p.1 = k then (k, v) else p)
  else
    l ++ [(k, v)]

/-- Key lookup in a JS object association list. -/
def jsObjGet (l : List (String × α)) (k : String) : Option α :=
  (l.find? (fun p => p.1 = k)).map Prod.snd

/-! ## String replacement

`String.prototype.replace(new RegExp(pat, 'g'), rep)` for a pattern without
regex metacharacters is global, case-sensitive, non-overlapping leftmost
literal replacement.  `splitSub` is the matching leftmost split (the segments
between consecutive matches); `replaceSub` performs the replacement directly.
Both work on character lists; string wrappers follow. -/

/-- Worker of `splitSub`: fuel-bounded (the wrapper's fuel, the text length,
always suffices because `p` is non-empty there). -/
def splitSubGo (p : List Char) : Nat → List Char → List (List Char)
  | _, [] => [[]]
  | 0, s => [s]
  | Nat.succ f, c :: cs =>
    if p.isPrefixOf (c :: cs) then
      [] :: splitSubGo p f ((c :: cs).drop p.length)
    else
      match splitSubGo p f cs with
      | [] => [[c]]
      | h :: t => (c :: h) :: t

/-- Leftmost non-overlapping split of `s` on the literal pattern `p`:
the chunks between matches (`[s]` when `p` is empty, mirroring that the
source never builds an empty `{{name}}` pattern). -/
def splitSub (p s : List Char) : List (List Char) :=
  if p.isEmpty then [s] else splitSubGo p s.length s

/-- Worker of `replaceSub`, fuel-bounded like `splitSubGo`. -/
def replaceSubGo (p r : List Char) : Nat → List Char → List Char
  | _, [] => []
  | 0, s => s
  | Nat.succ f, c :: cs =>
    if p.isPrefixOf (c :: cs) then
      r ++ replaceSubGo p r f ((c :: cs).drop p.length)
    else
      c :: replaceSubGo p r f cs

/-- Global leftmost non-overlapping literal replacement of `p` by `r` in `s`.
When `p` is empty the string is returned unchanged. -/
def replaceSub (p r s : List Char) : List Char :=
  if p.isEmpty then s else replaceSubGo p r s.length s

/-- String wrapper for `replaceSub`: JS `s.replace(new RegExp(p,'g'), r)` for a
metacharacter-free literal pattern `p` and a `$`-free replacement `r`. -/
def strReplaceAll (s p r : String) : String :=
  ⟨replaceSub p.toList r.toList s.toList⟩

/-! ## Data model (src/types/index.ts) -/

/-- Node execution status (`NodeStatus`). -/
inductive NodeStatus where
  | idle
  | running
  | completed
  | error
deriving DecidableEq

/-- An uploaded file held by an addAssets node's result
(`{name, size, content}` as read by `executeAddAssetsNode`). -/
structure AssetFile where
  name : String
  size : Nat
  content : String
deriving DecidableEq

/-- Opaque node result values (`unknown` in the source).  The engine only ever
stores strings produced by handlers, strings entered through the UI, or the
asset object `{textInput?, files?}` the addAssets UI component stores. -/
inductive Value where
  | vstr : String → Value
  | vassets : Option String → Option (List AssetFile) → Value
deriving DecidableEq

/-- JS `String(v)` on a stored value: strings unchanged, plain objects print
as `[object Object]`. -/
def jsStringVal : Value → String
  | .vstr s => s
  | .vassets _ _ => "[object Object]"

/-- JS truthiness of a stored value: `""` is falsy, objects are truthy. -/
def jsTruthyVal : Value → Bool
  | .vstr s => !s.isEmpty
  | .vassets _ _ => true

/-- JS `String(v || '')` on an optional value (`undefined` and `""` give `""`). -/
def jsStringValOrEmpty : Option Value → String
  | none => ""
  | some v => if jsTruthyVal v then jsStringVal v else ""

/-- JS `String(v)` on an optional value (`String(undefined) = "undefined"`). -/
def jsStringValOpt : Option Value → String
  | none => "undefined"
  | some v => jsStringVal v

/-- JS truthiness of an optional value. -/
def jsTruthyValOpt : Option Value → Bool
  | none => false
  | some v => jsTruthyVal v

/-- Node configuration.  The source keeps one config interface per node type
and reads fields through `as any`, so a missing field is `undefined`; the
embedding carries all fields with `none` for the ones a node type lacks.
`title` is a plain (possibly empty) string on every config. -/
structure NodeConfig where
  title : String
  promptTemplate : Option String := none
  model : String := ""
  roleDescription : Option String := none
  format : Option String := none
  required : Bool := false
  inputType : Option String := none
  textInput : Option String := none
deriving DecidableEq

/-- A workflow node.  `type` is a string tag: the source's union type is
erased at runtime and `executeNodeByType` has an explicit unknown-type branch.
The canvas position is irrelevant to the engine and omitted. -/
structure Node where
  id : String
  type : String
  config : NodeConfig
  status : NodeStatus
  result : Option Value := none
deriving DecidableEq

/-- A directed connection between node ports. -/
structure Connection where
  id : String
  sourceNodeId : String
  targetNodeId : String
  sourcePort : String := "output"
  targetPort : String := "input"
deriving DecidableEq

/-- A workflow graph: the engine reads only nodes and connections. -/
structure Workflow where
  nodes : List Node
  connections : List Connection
deriving DecidableEq

/-! ## Graph utilities (src/utils/workflowUtils.ts) -/

/-- `getInputNodes`: the source nodes of the connections entering `nodeId`
(connections whose source id resolves to no node are dropped by the
source's `.filter`). -/
def getInputNodes (nodeId : String) (nodes : List Node) (connections : List Connection) :
    List Node :=
  (connections.filter (fun c => c.targetNodeId = nodeId)).filterMap
    (fun c => nodes.find? (fun n => n.id = c.sourceNodeId))

/-- `getConnectedVariables`: one `{name, source, value}` triple per input node;
the name is the node title or `Node <first 8 chars of id>` when untitled. -/
def getConnectedVariables (nodeId : String) (nodes : List Node)
    (connections : List Connection) : List (String × String × Option Value) :=
  (getInputNodes nodeId nodes connections).map
    (fun n => (jsOrStr n.config.title ("Node " ++ n.id.take 8), n.id, n.result))

/-- Adjacency function of `hasCircularDependencies` and `getTopologicalOrder`:
outgoing targets of `s`, present only when `s` is a node id (the source only
creates adjacency entries for nodes, and pushes silently no-op otherwise). -/
def adjOf (nodes : List Node) (connections : List Connection) (s : String) : List String :=
  if (nodes.map Node.id).contains s then
    (connections.filter (fun c => c.sourceNodeId = s)).map Connection.targetNodeId
  else
    []

/-- One DFS visit of `hasCircularDependencies`' inner `hasCycle`:
returns the captured cycle path (the recursion stack from the root, in push
order, exactly the source's `path` array at detection time) or `none`, plus
the updated visited set.  `stack` doubles as the source's `recursionStack`
and `path`; the recursion into the neighbour list is a fold that stops
changing once a cycle is found (the source's early `return true`). -/
def dfsNode (adj : String → List String) : Nat → List String → List String → String →
    Option (List String) × List String
  | 0, visited, stack, u =>
    if stack.contains u then (some stack, visited) else (none, visited)
  | Nat.succ f, visited, stack, u =>
    if stack.contains u then (some stack, visited)
    else if visited.contains u then (none, visited)
    else
      (adj u).foldl
        (fun acc v =>
          match acc with
          | (some p, vis) => (some p, vis)
          | (none, vis) => dfsNode adj f vis (stack ++ [u]) v)
        (none, u :: visited)

/-- Root loop of `hasCircularDependencies`: visit each adjacency-map key (the
node ids, first occurrence first) not yet visited, returning the first captured
cycle path. -/
def dfsRoots (adj : String → List String) (fuel : Nat) (visited : List String) :
    List String → Option (List String)
  | [] => none
  | r :: rs =>
    if visited.contains r then dfsRoots adj fuel visited rs
    else
      match dfsNode adj fuel visited [] r with
      | (some p, _) => some p
      | (none, vis) => dfsRoots adj fuel vis rs

/-- `hasCircularDependencies`: DFS with an explicit recursion stack from every
node, returning whether a cycle exists and the captured cycle path.  Fuel
`nodes + connections + 1` dominates the depth of the source's recursion (each
level below the first visit of a node adds a distinct id, and every id is a
node id or a connection target). -/
def hasCircularDependencies (nodes : List Node) (connections : List Connection) :
    Bool × Option (List String) :=
  let adj := adjOf nodes connections
  let fuel := nodes.length + connections.length + 1
  match dfsRoots adj fuel [] (dedupFirst (nodes.map Node.id)) with
  | some p => (true, some p)
  | none => (false, none)

/-- `validateWorkflow`: structural validation.  Returns `(isValid, errors)`;
`isValid` is `errors.isEmpty`, and the isolated-node warning is pushed into
the same `errors` list as the fatal errors. -/
def validateWorkflow (wf : Workflow) : Bool × List String :=
  let emptyErr : List String :=
    if wf.nodes.length = 0 then ["Workflow must contain at least one node"] else []
  let circular := hasCircularDependencies wf.nodes wf.connections
  let circularErr : List String :=
    if circular.1 then
      match circular.2 with
      | some path =>
        if path.length > 0 then
          let names := path.map (fun nodeId =>
            match wf.nodes.find? (fun n => n.id = nodeId) with
            | some n => jsOrStr n.config.title (nodeId.take 8)
            | none => nodeId.take 8)
          ["Workflow contains circular dependencies: " ++ String.intercalate " → " names]
        else ["Workflow contains circular dependencies"]
      | none => ["Workflow contains circular dependencies"]
    else []
  let connErrs : List String :=
    wf.connections.flatMap (fun c =>
      (if (wf.nodes.find? (fun n => n.id = c.sourceNodeId)).isNone then
        ["Connection references non-existent source node: " ++ c.sourceNodeId] else []) ++
      (if (wf.nodes.find? (fun n => n.id = c.targetNodeId)).isNone then
        ["Connection references non-existent target node: " ++ c.targetNodeId] else []))
  let connectedIds :=
    wf.connections.map Connection.sourceNodeId ++ wf.connections.map Connection.targetNodeId
  let isolated := wf.nodes.filter (fun n => !connectedIds.contains n.id)
  let isolatedErr : List String :=
    if isolated.length > 0 ∧ wf.nodes.length > 1 then
      ["Warning: Isolated nodes detected (not connected to workflow): " ++
        String.intercalate ", " (isolated.map (fun n => jsOrStr n.config.title (n.id.take 8)))]
    else []
  let errors := emptyErr ++ circularErr ++ connErrs ++ isolatedErr
  (errors.isEmpty, errors)

/-- One pop's neighbour pass in Kahn's algorithm: decrement each neighbour's
in-degree in order, enqueueing a neighbour exactly when its degree reaches 0.
Returns the extended queue and updated degrees. -/
def processNeighbors : List String → List String → (String → Int) →
    List String × (String → Int)
  | [], q, deg => (q, deg)
  | nb :: nbs, q, deg =>
    let d := deg nb - 1
    let deg' := fun k => if k = nb then d else deg k
    processNeighbors nbs (if d = 0 then q ++ [nb] else q) deg'

/-- The `while (queue.length > 0)` loop of `getTopologicalOrder`: pop the queue
head, append it to the result, process its neighbours.  Fuel bounds the
iteration count; the wrapper's fuel dominates it because every id is enqueued
at most once (its in-degree passes through 0 at most once). -/
def kahnLoop (adj : String → List String) : Nat → List String → (String → Int) →
    List String
  | _, [], _ => []
  | 0, _ :: _, _ => []
  | Nat.succ f, cur :: rest, deg =>
    let step := processNeighbors (adj cur) rest deg
    cur :: kahnLoop adj f step.1 step.2

/-- The insertion-ordered key list of `getTopologicalOrder`'s in-degree map:
node ids first (first occurrence first), then connection targets that are not
node ids, in connection order. -/
def kahnKeys (nodes : List Node) (connections : List Connection) : List String :=
  dedupFirst (nodes.map Node.id ++ connections.map Connection.targetNodeId)

/-- The initial in-degree of a key: one per connection entering it (node ids
start at 0 and are incremented per incoming connection; non-node targets are
created by their first increment). -/
def kahnDeg0 (connections : List Connection) (k : String) : Int :=
  ((connections.filter (fun c => c.targetNodeId = k)).length : Int)

/-- `getTopologicalOrder`: Kahn's algorithm.  The queue is seeded with the
in-degree-0 keys in insertion order; fuel `nodes + connections` bounds the
number of iterations (each id enters the queue at most once, and every
enqueued id is a node id or a connection target). -/
def getTopologicalOrder (nodes : List Node) (connections : List Connection) :
    List String :=
  let adj := adjOf nodes connections
  let deg0 := kahnDeg0 connections
  let queue0 := (kahnKeys nodes connections).filter (fun k => deg0 k = 0)
  kahnLoop adj (nodes.length + connections.length) queue0 deg0

/-! ## Node executor (src/services/executionService.ts) -/

/-- Execution context passed to the per-type handlers: `inputs` keyed by input
node title (or `input_<index>`), `variables` keyed by the connected-variable
name; both JS objects in insertion order. -/
structure ExecutionContext where
  nodeId : String
  inputs : List (String × Option Value)
  vars : List (String × Option Value)
deriving DecidableEq

/-- Result of a single-node execution. -/
structure ExecutionResult where
  success : Bool
  result : Option Value := none
  error : Option String := none
deriving DecidableEq

/-- The dependency-not-ready message for an input node title. -/
def depNotReadyMsg (title : String) : String :=
  "Input node \"" ++ title ++ "\" has not been executed yet"

/-- The generate-node insufficient-configuration message. -/
def genNeedsInputMsg : String :=
  "Generate node needs either connected inputs or a prompt template"

/-- The output-node no-input message. -/
def outputNeedsInputMsg : String :=
  "Output node needs at least one connected input"

/-- The dependency-scan predicate of `validateNodeExecution`: an input node
that is neither completed nor carries a result. -/
def notReady (inp : Node) : Bool :=
  inp.status ≠ NodeStatus.completed ∧ inp.result = none

/-- `validateNodeExecution`: readiness validation.  First the dependency scan
(the first input node that is neither `completed` nor carries a result fails
it), then the per-type rules: a generate node with no inputs and no (truthy)
prompt template, and an output node with no inputs, are rejected;
userInput and addAssets nodes pass unconditionally. -/
def validateNodeExecution (node : Node) (nodes : List Node)
    (connections : List Connection) : Option String :=
  let inputNodes := getInputNodes node.id nodes connections
  match inputNodes.find? notReady with
  | some inp => some (depNotReadyMsg inp.config.title)
  | none =>
    if node.type = "generate" then
      if inputNodes.isEmpty ∧ !jsTruthyStr node.config.promptTemplate then
        some genNeedsInputMsg
      else none
    else if node.type = "output" then
      if inputNodes.isEmpty then some outputNeedsInputMsg else none
    else none

/-- `buildExecutionContext`: `inputs[title || input_<i>] = result` per input
node, `variables[name] = value` per connected variable. -/
def buildExecutionContext (node : Node) (nodes : List Node)
    (connections : List Connection) : ExecutionContext :=
  let inputNodes := getInputNodes node.id nodes connections
  let inputs := (inputNodes.enum).foldl
    (fun acc p =>
      jsObjSet acc (jsOrStr p.2.config.title ("input_" ++ toString p.1)) p.2.result)
    []
  let vars := (getConnectedVariables node.id nodes connections).foldl
    (fun acc v => jsObjSet acc v.1 v.2.2) []
  { nodeId := node.id, inputs := inputs, vars := vars }

/-- JS `/^[^\s@]+@[^\s@]+\.[^\s@]+$/.test(s)`: no whitespace, exactly one `@`
with a non-empty local part, and a dot in the domain with non-empty text on
both sides (`\s` modelled by `Char.isWhitespace`). -/
def jsEmailTest (s : String) : Bool :=
  let cs := s.toList
  match cs.splitOnP (fun c => c = '@') with
  | [a, rest] =>
    !a.isEmpty ∧ a.all (fun c => !c.isWhitespace) ∧
    !rest.isEmpty ∧ rest.all (fun c => !c.isWhitespace) ∧
    ((rest.drop 1).dropLast).contains '.'
  | _ => false

/-- Digit-run recogniser for `jsNumberNaN`. -/
def allDigits (cs : List Char) : Bool := !cs.isEmpty ∧ cs.all Char.isDigit

/-- A JS decimal mantissa: digits with at most one dot and at least one digit
(so `1.`, `.5`, `12` qualify but `.` does not). -/
def jsDecMantissa (cs : List Char) : Bool :=
  (cs.all (fun c => c.isDigit ∨ c = '.')) ∧
  (cs.filter (fun c => c = '.')).length ≤ 1 ∧
  (cs.filter Char.isDigit).length ≥ 1

/-- The exponent tail of a JS decimal literal: optionally signed digits. -/
def jsExpPart : List Char → Bool
  | '+' :: ds => allDigits ds
  | '-' :: ds => allDigits ds
  | ds => allDigits ds

/-- A JS decimal literal: mantissa with an optional `e`/`E` exponent. -/
def jsDecLiteral (cs : List Char) : Bool :=
  match cs.splitOnP (fun c => c = 'e' ∨ c = 'E') with
  | [m] => jsDecMantissa m
  | [m, ex] => jsDecMantissa m && jsExpPart ex
  | _ => false

/-- A JS non-decimal literal: `0x`/`0X` hex, `0b`/`0B` binary, `0o`/`0O` octal. -/
def jsRadixLiteral : List Char → Bool
  | '0' :: p :: ds =>
    if p = 'x' ∨ p = 'X' then !ds.isEmpty ∧ ds.all (fun c => c.isDigit ∨
      ('a' ≤ c ∧ c ≤ 'f') ∨ ('A' ≤ c ∧ c ≤ 'F'))
    else if p = 'b' ∨ p = 'B' then !ds.isEmpty ∧ ds.all (fun c => c = '0' ∨ c = '1')
    else if p = 'o' ∨ p = 'O' then !ds.isEmpty ∧ ds.all (fun c => '0' ≤ c ∧ c ≤ '7')
    else false
  | _ => false

/-- JS `isNaN(Number(s))`: the trimmed string is neither empty (Number('')
is 0), a signed decimal/`Infinity` literal, nor an unsigned radix literal. -/
def jsNumberNaN (s : String) : Bool :=
  let t := (strTrim s).toList
  let core := fun (u : List Char) => u = "Infinity".toList ∨ jsDecLiteral u
  match t with
  | [] => false
  | '+' :: u => !(core u)
  | '-' :: u => !(core u)
  | u => !(core u ∨ jsRadixLiteral u)

/-- `executeUserInputNode`: a required node with no (truthy) result or a
blank-after-trim result throws; an `email`/`number` inputType with a non-empty
value is format-checked; otherwise the node's own result string is returned. -/
def executeUserInputNode (node : Node) : Except String Value :=
  if node.config.required ∧
      (!jsTruthyValOpt node.result ∨ strTrim (jsStringValOpt node.result) = "") then
    .error "Required input is missing"
  else
    let inputValue := jsStringValOrEmpty node.result
    if node.config.inputType = some "email" ∧ !inputValue.isEmpty ∧
        !jsEmailTest inputValue then
      .error "Invalid email format"
    else if node.config.inputType = some "number" ∧ !inputValue.isEmpty ∧
        jsNumberNaN inputValue then
      .error "Input must be a valid number"
    else
      .ok (.vstr inputValue)

/-- The template-substitution step of `executeGenerateNode`: each variable's
`{{name}}` occurrences are globally replaced by `String(value || '')`, one
variable after the other in insertion order (the source's
`prompt.replace(new RegExp('{{'+key+'}}', 'g'), String(value || ''))`). -/
def substituteVariables (vars : List (String × Option Value)) (template : String) :
    String :=
  vars.foldl
    (fun prompt kv =>
      strReplaceAll prompt ("\x7b\x7b" ++ kv.1 ++ "\x7d\x7d") (jsStringValOrEmpty kv.2))
    template

/-- JS `s.includes(pat)`. -/
def strIncludes (s pat : String) : Bool := decide (pat.toList <:+: s.toList)

/-- The prompt `executeGenerateNode` builds: the (truthy) template or the
default text, variables substituted, and — when there are inputs and no `{{`
remains after substitution — the `key: value` input context appended. -/
def buildGeneratePrompt (node : Node) (ctx : ExecutionContext) : String :=
  let template := match node.config.promptTemplate with
    | some t => jsOrStr t "Generate content based on the following inputs:"
    | none => "Generate content based on the following inputs:"
  let prompt := substituteVariables ctx.vars template
  if ctx.inputs.length > 0 ∧ !strIncludes prompt "\x7b\x7b" then
    prompt ++ "\n\nInputs:\n" ++
      String.intercalate "\n"
        (ctx.inputs.map (fun kv => kv.1 ++ ": " ++ jsStringValOpt kv.2))
  else prompt

/-- External generation oracle: the environment's API key, the Gemini call
(model and full prompt to the API's text or thrown message), and the local
simulation's response (always resolves).  The content-generation call is
outside the engine per the spec's scope. -/
structure GenOracle where
  hasApiKey : Bool
  gemini : String → String → Except String String
  sim : String → String → String

/-- `executeGenerateNode`: build the prompt, then call the Gemini API for a
`gemini*` model (role description prefixed when truthy, API/key failures
rethrown with the `Gemini API call failed:` wrapper) or the local simulation
otherwise. -/
def executeGenerateNode (g : GenOracle) (node : Node) (ctx : ExecutionContext) :
    Except String Value :=
  let prompt := buildGeneratePrompt node ctx
  if strStartsWith node.config.model "gemini" then
    if !g.hasApiKey then
      .error "Gemini API key not found. Please set VITE_GEMINI_API_KEY in your .env file."
    else
      let fullPrompt :=
        if jsTruthyStr node.config.roleDescription then
          node.config.roleDescription.getD "" ++ "\n\n" ++ prompt
        else prompt
      match g.gemini node.config.model fullPrompt with
      | .ok text => .ok (.vstr text)
      | .error m => .error ("Gemini API call failed: " ++ m)
  else
    .ok (.vstr (g.sim node.config.model prompt))

/-- JSON string escaping as `JSON.stringify` performs it (the control
characters the stored values can contain). -/
def jsonEscapeChar (c : Char) : String :=
  if c = '"' then "\\\""
  else if c = '\\' then "\\\\"
  else if c = '\n' then "\\n"
  else if c = '\t' then "\\t"
  else if c = '\r' then "\\r"
  else String.singleton c

/-- A JSON string literal. -/
def jsonStr (s : String) : String :=
  "\"" ++ String.join (s.toList.map jsonEscapeChar) ++ "\""

/-- JSON values as `JSON.stringify(·, null, 2)` renders them here. -/
inductive J where
  | jstr : String → J
  | jnum : Nat → J
  | jarr : List J → J
  | jobj : List (String × J) → J

mutual

/-- `JSON.stringify(value, null, 2)` rendering at nesting depth `ind`
(the indentation is two spaces per depth; empty arrays/objects collapse). -/
def renderJ (ind : Nat) : J → String
  | .jstr s => jsonStr s
  | .jnum n => toString n
  | .jarr [] => "[]"
  | .jarr (x :: xs) =>
    "[\n" ++ String.intercalate ",\n" (renderJList (ind + 1) (x :: xs)) ++ "\n" ++
      String.join (List.replicate ind "  ") ++ "]"
  | .jobj [] => "\x7b\x7d"
  | .jobj (kv :: kvs) =>
    "\x7b\n" ++ String.intercalate ",\n" (renderJKVs (ind + 1) (kv :: kvs)) ++ "\n" ++
      String.join (List.replicate ind "  ") ++ "\x7d"

/-- The indented lines of a JSON array's items. -/
def renderJList (ind : Nat) : List J → List String
  | [] => []
  | x :: xs =>
    (String.join (List.replicate ind "  ") ++ renderJ ind x) :: renderJList ind xs

/-- The indented `"key": value` lines of a JSON object's entries. -/
def renderJKVs (ind : Nat) : List (String × J) → List String
  | [] => []
  | kv :: kvs =>
    (String.join (List.replicate ind "  ") ++ jsonStr kv.1 ++ ": " ++ renderJ ind kv.2) ::
      renderJKVs ind kvs

end

/-- The JSON form of a stored value (an asset object keeps its `textInput`
and `files` entries when present). -/
def jsonOfValue : Value → J
  | .vstr s => .jstr s
  | .vassets t f =>
    .jobj ((t.map (fun x => ("textInput", J.jstr x))).toList ++
      (f.map (fun fs => ("files", J.jarr (fs.map (fun af =>
        J.jobj [("name", .jstr af.name), ("size", .jnum af.size),
          ("content", .jstr af.content)]))))).toList)

/-- `JSON.stringify(context.inputs, null, 2)`: the inputs object with
`undefined`-valued keys omitted. -/
def jsonStringifyInputs (inputs : List (String × Option Value)) : String :=
  renderJ 0 (.jobj (inputs.filterMap (fun kv => kv.2.map (fun v => (kv.1, jsonOfValue v)))))

/-- `executeOutputNode`: throws with no inputs, else formats the input values
as pretty JSON, a numbered list, or (default `text`) a blank-line-joined
concatenation (`Array.join` renders `undefined` as the empty string). -/
def executeOutputNode (node : Node) (ctx : ExecutionContext) : Except String Value :=
  let inputValues := ctx.inputs.map Prod.snd
  if inputValues.isEmpty then
    .error "No inputs available for output"
  else if node.config.format = some "json" then
    .ok (.vstr (jsonStringifyInputs ctx.inputs))
  else if node.config.format = some "list" then
    .ok (.vstr (String.intercalate "\n"
      (inputValues.enum.map (fun p => toString (p.1 + 1) ++ ". " ++ jsStringValOpt p.2))))
  else
    .ok (.vstr (String.intercalate "\n\n"
      (inputValues.map (fun v => match v with | none => "" | some x => jsStringVal x))))

/-- A string option that is truthy and stays truthy after `trim` (the
`x && x.trim()` guard of `executeAddAssetsNode`). -/
def trimTruthy : Option String → Bool
  | none => false
  | some t => !t.isEmpty ∧ !(strTrim t).isEmpty

/-- `executeAddAssetsNode`: collect the text asset (the result object's
`textInput`, else the config's) and one line per uploaded file; throws when
nothing was provided. -/
def executeAddAssetsNode (node : Node) : Except String Value :=
  let nodeText : Option String :=
    match node.result with | some (.vassets t _) => t | _ => none
  let nodeFiles : Option (List AssetFile) :=
    match node.result with | some (.vassets _ f) => f | _ => none
  let textAssets : List String :=
    if trimTruthy nodeText then ["Text Input: " ++ nodeText.getD ""]
    else if trimTruthy node.config.textInput then
      ["Text Input: " ++ node.config.textInput.getD ""]
    else []
  let fileAssets : List String :=
    match nodeFiles with
    | some fs => fs.map (fun f =>
        "File: " ++ f.name ++ " (" ++ toString ((f.size + 512) / 1024) ++ "KB) - " ++
          (f.content.take 100) ++ "...")
    | none => []
  let assets := textAssets ++ fileAssets
  if assets.isEmpty then
    .error "No assets provided. Please add text input or upload files."
  else
    .ok (.vstr ("Successfully processed " ++ toString assets.length ++
      " asset(s):\n\n" ++ String.intercalate "\n\n" assets))

/-- `executeNodeByType`: dispatch on the node's type tag; an unknown tag
throws. -/
def executeNodeByType (g : GenOracle) (node : Node) (ctx : ExecutionContext) :
    Except String Value :=
  if node.type = "userInput" then executeUserInputNode node
  else if node.type = "generate" then executeGenerateNode g node ctx
  else if node.type = "output" then executeOutputNode node ctx
  else if node.type = "addAssets" then executeAddAssetsNode node
  else .error ("Unknown node type: " ++ node.type)

/-- `executeNode` with handler-dispatch instrumentation: the boolean records
whether `executeNodeByType` was reached.  Every thrown error is caught and
returned as a typed `{success: false, error}` result. -/
def executeNodeT (g : GenOracle) (nodeId : String) (nodes : List Node)
    (connections : List Connection) : ExecutionResult × Bool :=
  match nodes.find? (fun n => n.id = nodeId) with
  | none => ({ success := false, error := some "Node not found" }, false)
  | some node =>
    match validateNodeExecution node nodes connections with
    | some e => ({ success := false, error := some e }, false)
    | none =>
      let ctx := buildExecutionContext node nodes connections
      match executeNodeByType g node ctx with
      | .ok v => ({ success := true, result := some v }, true)
      | .error m => ({ success := false, error := some m }, true)

/-- `ExecutionService.executeNode`: the result the caller sees. -/
def executeNode (g : GenOracle) (nodeId : String) (nodes : List Node)
    (connections : List Connection) : ExecutionResult :=
  (executeNodeT g nodeId nodes connections).1

/-! ## Execution coordinator (src/services/workflowExecutionService.ts) -/

/-- A workflow-level error record (`WorkflowError`); the timestamp is a tick
of the logical clock standing for `new Date()`. -/
structure WorkflowErrRec where
  nodeId : String
  message : String
  type : String
  timestamp : Nat
deriving DecidableEq

/-- `WorkflowExecutionState`. -/
structure ExecState where
  isRunning : Bool
  currentNodeId : Option String
  completedNodes : List String
  failedNodes : List String
  progress : ℚ
  errors : List WorkflowErrRec
  startTime : Option Nat := none
  endTime : Option Nat := none
deriving DecidableEq

/-- The initial execution state. -/
def initialExecState : ExecState :=
  { isRunning := false, currentNodeId := none, completedNodes := [], failedNodes := [],
    progress := 0, errors := [], startTime := none, endTime := none }

/-- A partial state update (`Partial<WorkflowExecutionState>`): `none` leaves
the field alone; for the optional-in-the-source fields an explicit
`some none` overwrites with `undefined` (the spread copies listed keys even
when their value is `undefined`). -/
structure StateUpd where
  isRunning : Option Bool := none
  currentNodeId : Option (Option String) := none
  completedNodes : Option (List String) := none
  failedNodes : Option (List String) := none
  progress : Option ℚ := none
  errors : Option (List WorkflowErrRec) := none
  startTime : Option (Option Nat) := none
  endTime : Option (Option Nat) := none

/-- `updateExecutionState`: `{ ...state, ...updates }` (synchronous listener
notification carries no data back and is not modelled). -/
def applyUpd (st : ExecState) (u : StateUpd) : ExecState :=
  { isRunning := u.isRunning.getD st.isRunning,
    currentNodeId := u.currentNodeId.getD st.currentNodeId,
    completedNodes := u.completedNodes.getD st.completedNodes,
    failedNodes := u.failedNodes.getD st.failedNodes,
    progress := u.progress.getD st.progress,
    errors := u.errors.getD st.errors,
    startTime := u.startTime.getD st.startTime,
    endTime := u.endTime.getD st.endTime }

/-- `stopExecution`: flips `isRunning` off, clears the current node and stamps
`endTime` — the full effect of a `stop()` call at tick `t`. -/
def stopExecution (st : ExecState) (t : Nat) : ExecState :=
  let u : StateUpd :=
    { isRunning := some false, currentNodeId := some none,
      endTime := some (some t) }
  applyUpd st u

/-- `resetExecutionState`: every field back to its initial value. -/
def resetExecutionState (st : ExecState) : ExecState :=
  let u : StateUpd :=
    { isRunning := some false, currentNodeId := some none,
      completedNodes := some [], failedNodes := some [], progress := some 0,
      errors := some [], startTime := some none, endTime := some none }
  applyUpd st u

/-- An `onNodeUpdate(nodeId, updates)` call: the partial node update the
coordinator hands the caller. -/
structure NodeUpd where
  status : Option NodeStatus := none
  result : Option (Option Value) := none
deriving DecidableEq

/-- One collaborator callback invocation. -/
abbrev NodeEvent := String × NodeUpd

/-- Everything observable about one `executeWorkflow` run: the returned
`WorkflowExecutionResult` pieces, the `onNodeUpdate` event log, the node ids
passed to `ExecutionService.executeNode` in dispatch order, and the final
logical clock. -/
structure RunOutcome where
  success : Bool
  finalOutputs : List (String × Option Value)
  state : ExecState
  errors : List WorkflowErrRec
  nodeEvents : List NodeEvent
  dispatched : List String
  clock : Nat
deriving DecidableEq

/-- `new Map(nodes.map(n => [n.id, n]))` lookup: the last node with the id
wins. -/
def nodeMapGet (nodes : List Node) (nodeId : String) : Option Node :=
  nodes.reverse.find? (fun n => n.id = nodeId)

/-- The state of the coordinator loop between iterations. -/
structure LoopState where
  st : ExecState
  outputs : List (String × Option Value)
  events : List NodeEvent
  dispatched : List String
  clock : Nat

/-- The loop state after a skipped missing node (`continue` after recording a
node-not-found error). -/
def missingState (nodeId : String) (ls : LoopState) : LoopState :=
  let err : WorkflowErrRec :=
    ⟨nodeId, "Node " ++ nodeId ++ " not found in workflow", "execution", ls.clock⟩
  { ls with
    st := applyUpd ls.st { errors := some (ls.st.errors ++ [err]) },
    clock := ls.clock + 1 }

/-- The loop state after one successfully executed node: progress and current
node updated, the running and completed events emitted, the node dispatched,
its result recorded into the outputs (twice for an output node), the node
appended to `completedNodes` — with a scheduled `stop()` applied in the
middle, at the await. -/
def successState (g : GenOracle) (wf : Workflow) (total : Nat) (stopAt : Option Nat)
    (i : Nat) (nodeId : String) (node : Node) (ls : LoopState) : LoopState :=
  let u1 : StateUpd :=
    { currentNodeId := some (some nodeId),
      progress := some ((i : ℚ) / (total : ℚ) * 100) }
  let st1 := applyUpd ls.st u1
  let res := executeNode g nodeId wf.nodes wf.connections
  let stStop := if stopAt = some i then stopExecution st1 ls.clock else st1
  let clockStop := if stopAt = some i then ls.clock + 1 else ls.clock
  let st2 := applyUpd stStop { completedNodes := some (stStop.completedNodes ++ [nodeId]) }
  let events2 := ls.events ++ [(nodeId, { status := some .running })] ++
    [(nodeId, { status := some .completed, result := some res.result })]
  let outputs1 := jsObjSet ls.outputs nodeId res.result
  let outputs2 :=
    if node.type = "output" then
      jsObjSet outputs1 (jsOrStr node.config.title "Output") res.result
    else outputs1
  { st := st2, outputs := outputs2, events := events2,
    dispatched := ls.dispatched ++ [nodeId], clock := clockStop }

/-- The outcome returned when a node's execution fails: the node is recorded
in `failedNodes` and `errors`, its status set to `error`, the run flagged not
running, and the loop exits (halt on first error). -/
def failureOutcome (g : GenOracle) (wf : Workflow) (total : Nat) (stopAt : Option Nat)
    (i : Nat) (nodeId : String) (ls : LoopState) : RunOutcome :=
  let u1 : StateUpd :=
    { currentNodeId := some (some nodeId),
      progress := some ((i : ℚ) / (total : ℚ) * 100) }
  let st1 := applyUpd ls.st u1
  let res := executeNode g nodeId wf.nodes wf.connections
  let stStop := if stopAt = some i then stopExecution st1 ls.clock else st1
  let clockStop := if stopAt = some i then ls.clock + 1 else ls.clock
  let err : WorkflowErrRec :=
    ⟨nodeId, jsOrStr (res.error.getD "") "Unknown execution error", "execution", clockStop⟩
  let u2 : StateUpd :=
    { failedNodes := some (stStop.failedNodes ++ [nodeId]),
      errors := some (stStop.errors ++ [err]) }
  let st2 := applyUpd stStop u2
  let events2 := ls.events ++ [(nodeId, { status := some .running })] ++
    [(nodeId, { status := some .error })]
  let u3 : StateUpd :=
    { isRunning := some false, currentNodeId := some none,
      endTime := some (some (clockStop + 1)) }
  let st3 := applyUpd st2 u3
  { success := false, finalOutputs := ls.outputs, state := st3,
    errors := st3.errors, nodeEvents := events2, dispatched := ls.dispatched ++ [nodeId],
    clock := clockStop + 2 }

/-- The `for` loop of `executeWorkflow` over the topological order, one
iteration per entry of `pending` (which carries each id with its index `i`).
`stopAt` injects a `stopExecution` call into the awaited gap of iteration `i`
— the only suspension point, so the only place a caller's `stop()` can act.
The source checks no cancellation flag, so the loop always continues. -/
def runLoop (g : GenOracle) (wf : Workflow) (total : Nat) (stopAt : Option Nat) :
    List (Nat × String) → LoopState → RunOutcome
  | [], ls =>
    -- Step 4: all nodes processed; complete successfully.
    let u : StateUpd :=
      { isRunning := some false, currentNodeId := some none,
        progress := some 100, endTime := some (some ls.clock) }
    let st := applyUpd ls.st u
    { success := true, finalOutputs := ls.outputs, state := st, errors := st.errors,
      nodeEvents := ls.events, dispatched := ls.dispatched, clock := ls.clock + 1 }
  | (i, nodeId) :: pending, ls =>
    match nodeMapGet wf.nodes nodeId with
    | none => runLoop g wf total stopAt pending (missingState nodeId ls)
    | some node =>
      if (executeNode g nodeId wf.nodes wf.connections).success then
        runLoop g wf total stopAt pending
          (successState g wf total stopAt i nodeId node ls)
      else
        failureOutcome g wf total stopAt i nodeId ls

/-- `executeWorkflow`: reset the state, validate, topologically sort, run the
loop.  `st0`/`t0` are the coordinator's state and clock at entry; `stopAt`
schedules an external `stop()` during the awaited execution of the node at
that position of the order (`none`: no stop call). -/
def executeWorkflow (g : GenOracle) (wf : Workflow) (stopAt : Option Nat)
    (st0 : ExecState) (t0 : Nat) : RunOutcome :=
  let u0 : StateUpd :=
    { isRunning := some true, currentNodeId := some none,
      completedNodes := some [], failedNodes := some [], progress := some 0,
      errors := some [], startTime := some (some t0), endTime := some none }
  let st1 := applyUpd st0 u0
  let t1 := t0 + 1
  let validation := validateWorkflow wf
  if !validation.1 then
    let errs := (validation.2.enum).map
      (fun p => (⟨"", p.2, "validation", t1 + p.1⟩ : WorkflowErrRec))
    let t2 := t1 + validation.2.length
    let uv : StateUpd :=
      { isRunning := some false, errors := some errs,
        endTime := some (some t2) }
    let st2 := applyUpd st1 uv
    { success := false, finalOutputs := [], state := st2, errors := errs,
      nodeEvents := [], dispatched := [], clock := t2 + 1 }
  else
    let order := getTopologicalOrder wf.nodes wf.connections
    if order.length ≠ wf.nodes.length then
      let err : WorkflowErrRec :=
        ⟨"", "Workflow contains circular dependencies that prevent execution",
          "validation", t1⟩
      let uc : StateUpd :=
        { isRunning := some false, errors := some [err],
          endTime := some (some (t1 + 1)) }
      let st2 := applyUpd st1 uc
      { success := false, finalOutputs := [], state := st2, errors := [err],
        nodeEvents := [], dispatched := [], clock := t1 + 2 }
    else
      runLoop g wf order.length stopAt order.enum
        { st := st1, outputs := [], events := [], dispatched := [], clock := t1 }

/-- `canExecuteWorkflow`: running, empty, or invalid workflows are rejected
with the first validator error as reason. -/
def canExecuteWorkflow (st : ExecState) (wf : Workflow) : Bool × Option String :=
  if st.isRunning then (false, some "Another workflow is currently running")
  else if wf.nodes.length = 0 then (false, some "Workflow must contain at least one node")
  else
    let validation := validateWorkflow wf
    if !validation.1 then (false, validation.2.head?)
    else (true, none)

/-- The node statuses a caller following the `onNodeUpdate` protocol displays
after a run: each node's last status update, or its initial status if the run
never updated it. -/
def statusAfter (events : List NodeEvent) (n : Node) : NodeStatus :=
  (events.foldl (fun acc e =>
    if e.1 = n.id then (e.2.status.getD acc) else acc) n.status)

/-! ## Derived notions used by the statements and proofs -/

/-- The edge relation a connection list induces on ids. -/
def edgeRel (connections : List Connection) (a b : String) : Prop :=
  ∃ c ∈ connections, c.sourceNodeId = a ∧ c.targetNodeId = b

instance (connections : List Connection) (a b : String) :
    Decidable (edgeRel connections a b) :=
  inferInstanceAs (Decidable
    (∃ c ∈ connections, c.sourceNodeId = a ∧ c.targetNodeId = b))

/-- A directed cycle: a start node and a chain of edges leading back to it. -/
def HasCycle (connections : List Connection) : Prop :=
  ∃ v rest, List.Chain (edgeRel connections) v (rest ++ [v])

/-- The total number of already-processed adjacency occurrences of `k`:
how often Kahn's loop has decremented `k`'s in-degree after popping the
nodes in `hist`. -/
def adjWeight (adj : String → List String) (hist : List String) (k : String) : Nat :=
  (hist.map (fun h => (adj h).count k)).sum

/-- The invariant of Kahn's loop, relating the already-popped ids `hist`, the
queue and the current in-degree function. -/
def KahnInv (deg0 : String → Int) (adj : String → List String)
    (hist q : List String) (deg : String → Int) : Prop :=
  (hist ++ q).Nodup ∧
  (∀ k, deg k = deg0 k - (adjWeight adj hist k : Int)) ∧
  (∀ k ∈ q, deg k ≤ 0) ∧
  (∀ k ∈ hist, deg k ≤ 0)

/-- Concatenation of chunks with a separator (the shape of a completed global
replacement: the split chunks rejoined by the replacement text). -/
def joinWith (r : List Char) : List (List Char) → List Char
  | [] => []
  | [x] => x
  | x :: y :: t => x ++ r ++ joinWith r (y :: t)

/-- The error-record projection that drops the (clock-dependent) timestamp. -/
def errProj (e : WorkflowErrRec) : String × String × String :=
  (e.nodeId, e.message, e.type)

/-- The stop-insensitive observables of a run: returned success flag, dispatch
order, node-update events, final outputs, completed/failed lists, and the
errors without their timestamps. -/
def runProj (r : RunOutcome) :
    Bool × List String × List NodeEvent × List (String × Option Value) ×
      List String × List String × List (String × String × String) :=
  (r.success, r.dispatched, r.nodeEvents, r.finalOutputs,
    r.state.completedNodes, r.state.failedNodes, r.errors.map errProj)

/-- The two `onNodeUpdate` events of one successfully executed node. -/
def successEvents (g : GenOracle) (wf : Workflow) (id : String) : List NodeEvent :=
  [(id, { status := some .running }),
   (id, { status := some .completed,
          result := some (executeNode g id wf.nodes wf.connections).result })]

/-- The workflow-error message recorded when a node's execution fails. -/
def failMsg (g : GenOracle) (wf : Workflow) (id : String) : String :=
  jsOrStr ((executeNode g id wf.nodes wf.connections).error.getD "")
    "Unknown execution error"

/-! ## Concrete instances used by witnesses and counterexamples -/

/-- A pass-through generation oracle: the API key is present and the model
echoes its prompt; the simulation echoes as well. -/
def echoOracle : GenOracle :=
  { hasApiKey := true, gemini := fun _ p => .ok p, sim := fun _ p => p }

/-- A userInput node with id `A` holding the entered string `x`. -/
def exNodeA : Node :=
  { id := "A", type := "userInput", config := { title := "A" }, status := .idle,
    result := some (.vstr "x") }

/-- An addAssets node with id `B` and nothing provided: its handler always
throws `No assets provided...`. -/
def exNodeB : Node :=
  { id := "B", type := "addAssets", config := { title := "B" }, status := .idle }

/-- An output node with id `C` (default text format). -/
def exNodeC : Node :=
  { id := "C", type := "output", config := { title := "C" }, status := .idle }

/-- The chain A → B → C in which B's handler always fails. -/
def exWfHalt : Workflow :=
  { nodes := [exNodeA, exNodeB, exNodeC],
    connections := [⟨"c1", "A", "B", "output", "input"⟩, ⟨"c2", "B", "C", "output", "input"⟩] }

/-- A generate node with id `B` whose execution always succeeds (non-Gemini
model goes to the simulation) and whose snapshot carries an earlier result. -/
def exNodeBok : Node :=
  { id := "B", type := "generate",
    config := { title := "B", promptTemplate := some "hi", model := "m" },
    status := .idle, result := some (.vstr "old") }

/-- An all-success chain A → B → C (snapshot results make every readiness
check pass). -/
def exWfOk : Workflow :=
  { nodes := [exNodeA, exNodeBok, exNodeC],
    connections := [⟨"c1", "A", "B", "output", "input"⟩, ⟨"c2", "B", "C", "output", "input"⟩] }

/-- A → B plus an isolated node `D`: structurally sound except for the
isolated-node warning. -/
def exWfIsolated : Workflow :=
  { nodes := [exNodeA, exNodeBok,
      { id := "D", type := "userInput", config := { title := "D" }, status := .idle }],
    connections := [⟨"c1", "A", "B", "output", "input"⟩] }

/-- The 3-cycle A → B → C → A. -/
def exWfCycle : Workflow :=
  { nodes := [exNodeA, exNodeBok, exNodeC],
    connections := [⟨"c1", "A", "B", "output", "input"⟩, ⟨"c2", "B", "C", "output", "input"⟩,
      ⟨"c3", "C", "A", "output", "input"⟩] }

/-- One node `A` with a connection to the non-existent id `X`. -/
def exWfDangling : Workflow :=
  { nodes := [exNodeA], connections := [⟨"c1", "A", "X", "output", "input"⟩] }

/-- The In → Gen → Out template-substitution scenario: In holds `Ada`, Gen's
template is `Hello {{In}}` (a Gemini model so the oracle's echo is the
result), Out uses the text format. -/
def scNodeIn : Node :=
  { id := "in1", type := "userInput", config := { title := "In" }, status := .idle,
    result := some (.vstr "Ada") }

/-- The Gen node of the scenario. -/
def scNodeGen : Node :=
  { id := "gen1", type := "generate",
    config :=
      { title := "Gen", promptTemplate := some "Hello \x7b\x7bIn\x7d\x7d",
        model := "gemini-pro" },
    status := .idle }

/-- The Out node of the scenario. -/
def scNodeOut : Node :=
  { id := "out1", type := "output", config := { title := "Out", format := some "text" },
    status := .idle }

/-- The scenario's connections. -/
def scConns : List Connection :=
  [⟨"c1", "in1", "gen1", "output", "input"⟩, ⟨"c2", "gen1", "out1", "output", "input"⟩]

/-- What the code actually produces for Gen in the scenario: the substituted
template plus the appended input-context block. -/
def scGenActual : String := "Hello Ada\n\nInputs:\nIn: Ada"

/-- A generate node with no inputs and no prompt template. -/
def exNodeGenBare : Node :=
  { id := "G", type := "generate", config := { title := "G" }, status := .idle }

/-- An input node that is neither completed nor carries a result, feeding an
output node: the dependency-gating example. -/
def exNodeP : Node :=
  { id := "P", type := "userInput", config := { title := "P" }, status := .idle }

/-- The output node depending on `P`. -/
def exNodeQ : Node :=
  { id := "Q", type := "output", config := { title := "Q" }, status := .idle }

/-- The two-node graph P → Q with P not ready. -/
def exDepNodes : List Node := [exNodeP, exNodeQ]

/-- The single connection P → Q. -/
def exDepConns : List Connection := [⟨"c1", "P", "Q", "output", "input"⟩]

/-! # Theorems -/

/-! ## C9: reset clears the execution state and nothing else -/

/-- C9: `resetExecutionState`, invoked from any prior state, clears
`completedNodes`, `failedNodes`, `errors`, `progress`, `startTime` and
`endTime` and returns the state to idle (`isRunning = false`, no current
node).  Nodes are untouched by construction: the function takes and returns
only the execution-state record and invokes no node-update callback (its
source touches no `Node` value). -/
theorem c9_reset_clears_execution_state (st : ExecState) :
    resetExecutionState st = initialExecState := rfl

/-! ## C2: isolated nodes are pushed into the blocking error list -/

/-- C2 (code behaviour at the failing input): on `A → B` plus isolated `D`,
`validateWorkflow` pushes the isolated-node *warning* into the same `errors`
array that defines `isValid`, so the workflow is reported invalid,
`canExecuteWorkflow` rejects it with the warning as reason, and
`executeWorkflow` fails the run without dispatching any node — contradicting
the claim that isolated nodes are only a non-fatal warning. -/
theorem c2_isolated_node_blocks_execution :
    validateWorkflow exWfIsolated =
      (false, ["Warning: Isolated nodes detected (not connected to workflow): D"]) ∧
    canExecuteWorkflow initialExecState exWfIsolated =
      (false, some "Warning: Isolated nodes detected (not connected to workflow): D") ∧
    (executeWorkflow echoOracle exWfIsolated none initialExecState 0).success = false ∧
    (executeWorkflow echoOracle exWfIsolated none initialExecState 0).dispatched = [] := by
  refine ⟨?_, ?_, ?_, ?_⟩ <;> decide

/-! ## C1: stop() does not stop the loop -/

/-- C1 (counterexample): on the all-success chain A → B → C, a `stop()`
arriving while node A (position 0) is being executed changes nothing the
claim promises: B and C are still dispatched, their statuses end `completed`
(not `idle`), and the run returns `success = true` — there is no `Stopped`
outcome.  This falsifies the claim that a cancellation flag is checked at the
next loop-iteration boundary. -/
theorem c1_counterexample :
    (executeWorkflow echoOracle exWfOk (some 0) initialExecState 0).dispatched =
      ["A", "B", "C"] ∧
    (executeWorkflow echoOracle exWfOk (some 0) initialExecState 0).success = true ∧
    statusAfter (executeWorkflow echoOracle exWfOk (some 0) initialExecState 0).nodeEvents
      exNodeBok = NodeStatus.completed ∧
    statusAfter (executeWorkflow echoOracle exWfOk (some 0) initialExecState 0).nodeEvents
      exNodeC = NodeStatus.completed := by
  refine ⟨?_, ?_, ?_, ?_⟩ <;> decide

/-! ## C8: every failure path of executeNode is a typed result -/

/-- C8: `executeNode` never lets an exception cross to its caller — each
failure path is returned as `{success := false, error := message}`: a missing
node, a failed readiness validation, a handler that throws (any `.error` of
`executeNodeByType`, which by the last conjunct includes every unknown node
type), and symmetrically a handler value becomes a success result. -/
theorem c8_all_failures_are_typed_results (g : GenOracle) (nodeId : String)
    (nodes : List Node) (conns : List Connection) :
    (nodes.find? (fun n => n.id = nodeId) = none →
      executeNode g nodeId nodes conns =
        { success := false, result := none, error := some "Node not found" }) ∧
    (∀ node e, nodes.find? (fun n => n.id = nodeId) = some node →
      validateNodeExecution node nodes conns = some e →
      executeNode g nodeId nodes conns =
        { success := false, result := none, error := some e }) ∧
    (∀ node m, nodes.find? (fun n => n.id = nodeId) = some node →
      validateNodeExecution node nodes conns = none →
      executeNodeByType g node (buildExecutionContext node nodes conns) = .error m →
      executeNode g nodeId nodes conns =
        { success := false, result := none, error := some m }) ∧
    (∀ node v, nodes.find? (fun n => n.id = nodeId) = some node →
      validateNodeExecution node nodes conns = none →
      executeNodeByType g node (buildExecutionContext node nodes conns) = .ok v →
      executeNode g nodeId nodes conns =
        { success := true, result := some v, error := none }) ∧
    (∀ (node : Node) (ctx : ExecutionContext),
      node.type ≠ "userInput" → node.type ≠ "generate" → node.type ≠ "output" →
      node.type ≠ "addAssets" →
      executeNodeByType g node ctx = .error ("Unknown node type: " ++ node.type)) := by
  refine ⟨?_, ?_, ?_, ?_, ?_⟩
  · intro h; simp [executeNode, executeNodeT, h]
  · intro node e hf hv; simp [executeNode, executeNodeT, hf, hv]
  · intro node m hf hv hb; simp [executeNode, executeNodeT, hf, hv, hb]
  · intro node v hf hv hb; simp [executeNode, executeNodeT, hf, hv, hb]
  · intro node ctx h1 h2 h3 h4; simp [executeNodeByType, h1, h2, h3, h4]

/-- C8 (witness): the typed-result equations at concrete inputs — a node of
unknown type `magic`, and a missing node. -/
theorem c8_witness :
    executeNode echoOracle "missing" exDepNodes exDepConns =
      { success := false, result := none, error := some "Node not found" } ∧
    executeNodeByType echoOracle
      { id := "w", type := "magic", config := { title := "W" }, status := .idle }
      { nodeId := "w", inputs := [], vars := [] } =
      .error ("Unknown node type: " ++ "magic") := by
  constructor
  · exact (c8_all_failures_are_typed_results echoOracle "missing" exDepNodes exDepConns).1
      (by decide)
  · exact (c8_all_failures_are_typed_results echoOracle "w" [] []).2.2.2.2
      _ _ (by decide) (by decide) (by decide) (by decide)

/-! ## C6: the type-specific readiness rules -/

/-- C6: the per-type readiness rules of `validateNodeExecution`, as
`executeNode` enforces them: a generate node with zero input nodes and no
truthy prompt template fails pre-dispatch with the insufficient-configuration
message and the handler is never invoked; an output node with zero input
nodes fails pre-dispatch with the no-input message, handler never invoked
(the node is never set `running`: single-node execution performs no status
update at all, and the handler that could run it is not reached); userInput
and addAssets nodes pass the type-specific check unconditionally — their
validation can only fail with a dependency message. -/
theorem c6_type_specific_readiness (g : GenOracle) (nodes : List Node)
    (conns : List Connection) (node : Node)
    (hfind : nodes.find? (fun n => n.id = node.id) = some node) :
    (node.type = "generate" → getInputNodes node.id nodes conns = [] →
      jsTruthyStr node.config.promptTemplate = false →
      executeNodeT g node.id nodes conns =
        ({ success := false, result := none, error := some genNeedsInputMsg }, false)) ∧
    (node.type = "output" → getInputNodes node.id nodes conns = [] →
      executeNodeT g node.id nodes conns =
        ({ success := false, result := none, error := some outputNeedsInputMsg }, false)) ∧
    ((node.type = "userInput" ∨ node.type = "addAssets") →
      validateNodeExecution node nodes conns = none ∨
      ∃ t, validateNodeExecution node nodes conns = some (depNotReadyMsg t)) := by
  refine ⟨?_, ?_, ?_⟩
  · intro ht hin hpt
    have hv : validateNodeExecution node nodes conns = some genNeedsInputMsg := by
      simp [validateNodeExecution, hin, ht, hpt]
    simp [executeNodeT, hfind, hv]
  · intro ht hin
    have hv : validateNodeExecution node nodes conns = some outputNeedsInputMsg := by
      have hng : node.type ≠ "generate" := by simp [ht]
      simp [validateNodeExecution, hin, ht, hng]
    simp [executeNodeT, hfind, hv]
  · intro ht
    unfold validateNodeExecution
    cases hdep : (getInputNodes node.id nodes conns).find? notReady with
    | some inp =>
      right
      exact ⟨inp.config.title, by simp [hdep]⟩
    | none =>
      left
      rcases ht with h | h <;> simp [hdep, h]

/-- C6 (witness): the rules at concrete inputs — a bare generate node, a
lone output node, and userInput/addAssets nodes with no inputs. -/
theorem c6_witness :
    executeNodeT echoOracle "G" [exNodeGenBare] [] =
      ({ success := false, result := none, error := some genNeedsInputMsg }, false) ∧
    executeNodeT echoOracle "out1" [scNodeOut] [] =
      ({ success := false, result := none, error := some outputNeedsInputMsg }, false) ∧
    validateNodeExecution exNodeA [exNodeA] [] = none ∧
    validateNodeExecution exNodeB [exNodeB] [] = none := by
  refine ⟨?_, ?_, by decide, by decide⟩
  · exact (c6_type_specific_readiness echoOracle [exNodeGenBare] [] exNodeGenBare
      (by decide)).1 (by decide) (by decide) (by decide)
  · exact (c6_type_specific_readiness echoOracle [scNodeOut] [] scNodeOut
      (by decide)).2.1 (by decide) (by decide)

/-! ## C5: the dependency readiness check -/

/-- C5: if some input node of `nodeId` is neither `completed` nor carries a
result, `executeNode` fails and the type handler is never dispatched;
conversely, when every input node is completed or has a result, the
validation cannot produce a dependency-not-ready failure — it either passes
or returns one of the two type-specific configuration messages. -/
theorem c5_dependency_gating (g : GenOracle) (nodeId : String) (nodes : List Node)
    (conns : List Connection) :
    ((∃ inp ∈ getInputNodes nodeId nodes conns,
        inp.status ≠ NodeStatus.completed ∧ inp.result = none) →
      (executeNodeT g nodeId nodes conns).1.success = false ∧
      (executeNodeT g nodeId nodes conns).2 = false) ∧
    (∀ node, nodes.find? (fun n => n.id = nodeId) = some node →
      (∀ inp ∈ getInputNodes node.id nodes conns,
        inp.status = NodeStatus.completed ∨ inp.result ≠ none) →
      validateNodeExecution node nodes conns = none ∨
      validateNodeExecution node nodes conns = some genNeedsInputMsg ∨
      validateNodeExecution node nodes conns = some outputNeedsInputMsg) := by
  constructor
  · intro hex
    cases hfind : nodes.find? (fun n => n.id = nodeId) with
    | none => simp [executeNodeT, hfind]
    | some node =>
      have hid : node.id = nodeId := by
        have := List.find?_some hfind
        simpa using this
      have hsome : ((getInputNodes node.id nodes conns).find? notReady).isSome := by
        rw [List.find?_isSome]
        obtain ⟨inp, hmem, hc⟩ := hex
        exact ⟨inp, by rw [hid]; exact hmem, by simp [notReady, hc.1, hc.2]⟩
      obtain ⟨inp, hinp⟩ := Option.isSome_iff_exists.mp hsome
      have hv : validateNodeExecution node nodes conns =
          some (depNotReadyMsg inp.config.title) := by
        simp [validateNodeExecution, hinp]
      simp [executeNodeT, hfind, hv]
  · intro node _ hall
    have hnone : (getInputNodes node.id nodes conns).find? notReady = none := by
      rw [List.find?_eq_none]
      intro inp hmem
      rcases hall inp hmem with h | h <;> simp [notReady, h]
    simp only [validateNodeExecution, hnone]
    by_cases hg : node.type = "generate"
    · by_cases hc : (getInputNodes node.id nodes conns).isEmpty = true ∧
          (!jsTruthyStr node.config.promptTemplate) = true
      · right; left; simp [hg, hc.1, hc.2]
      · left; simp only [hg, if_true, if_pos rfl]
        rw [if_neg hc]
    · by_cases ho : node.type = "output"
      · by_cases hc : (getInputNodes node.id nodes conns).isEmpty = true
        · right; right; simp [hg, ho, hc]
        · left; simp [hg, ho, hc]
      · left; simp [hg, ho]

/-- C5 (witness): on P → Q with P idle and without result, executing Q fails
without dispatching the handler; and with P completed the validation of Q no
longer reports a dependency failure. -/
theorem c5_witness :
    ((executeNodeT echoOracle "Q" exDepNodes exDepConns).1.success = false ∧
      (executeNodeT echoOracle "Q" exDepNodes exDepConns).2 = false) ∧
    (validateNodeExecution exNodeQ
        [{ exNodeP with status := NodeStatus.completed }, exNodeQ] exDepConns = none ∨
      validateNodeExecution exNodeQ
        [{ exNodeP with status := NodeStatus.completed }, exNodeQ] exDepConns =
          some genNeedsInputMsg ∨
      validateNodeExecution exNodeQ
        [{ exNodeP with status := NodeStatus.completed }, exNodeQ] exDepConns =
          some outputNeedsInputMsg) := by
  constructor
  · exact (c5_dependency_gating echoOracle "Q" exDepNodes exDepConns).1
      ⟨exNodeP, by decide, by decide, by decide⟩
  · exact (c5_dependency_gating echoOracle "Q"
      [{ exNodeP with status := NodeStatus.completed }, exNodeQ] exDepConns).2
      exNodeQ (by decide) (by decide)

/-! ## C1: helper lemmas for stop-invariance -/

/-- A scheduled stop only touches `isRunning`, `currentNodeId` and
`endTime`; the bookkeeping fields pass through. -/
theorem stopIf_eq (st : ExecState) (o : Option Nat) (i t : Nat) :
    (if o = some i then stopExecution st t else st) =
    { st with
      isRunning := (if o = some i then false else st.isRunning),
      currentNodeId := (if o = some i then none else st.currentNodeId),
      endTime := (if o = some i then some t else st.endTime) } := by
  by_cases h : o = some i <;> simp [h, stopExecution, applyUpd]

/-- The loop's observable outcome does not depend on the stop schedule:
any two runs over the same pending nodes from loop states agreeing on the
completed/failed/error bookkeeping agree on every stop-insensitive
observable. -/
theorem runLoop_proj_congr (g : GenOracle) (wf : Workflow) (total : Nat)
    (sa sb : Option Nat) :
    ∀ (pending : List (Nat × String)) (lsa lsb : LoopState),
    lsa.st.completedNodes = lsb.st.completedNodes →
    lsa.st.failedNodes = lsb.st.failedNodes →
    lsa.st.errors.map errProj = lsb.st.errors.map errProj →
    lsa.outputs = lsb.outputs → lsa.events = lsb.events → lsa.dispatched = lsb.dispatched →
    runProj (runLoop g wf total sa pending lsa) =
      runProj (runLoop g wf total sb pending lsb)
  | [], lsa, lsb, hc, hf, he, ho, hev, hd => by
    simp [runLoop, runProj, applyUpd, hc, hf, he, ho, hev, hd]
  | (i, nodeId) :: pending, lsa, lsb, hc, hf, he, ho, hev, hd => by
    cases hn : nodeMapGet wf.nodes nodeId with
    | none =>
      simp only [runLoop, hn]
      exact runLoop_proj_congr g wf total sa sb pending _ _
        (by simp [missingState, applyUpd, hc]) (by simp [missingState, applyUpd, hf])
        (by simp [missingState, applyUpd, he, errProj]) (by simp [missingState, ho])
        (by simp [missingState, hev]) (by simp [missingState, hd])
    | some node =>
      simp only [runLoop, hn]
      by_cases hs : (executeNode g nodeId wf.nodes wf.connections).success = true
      · simp only [hs, if_true]
        exact runLoop_proj_congr g wf total sa sb pending _ _
          (by simp [successState, applyUpd, stopIf_eq, hc])
          (by simp [successState, applyUpd, stopIf_eq, hf])
          (by simp [successState, applyUpd, stopIf_eq, he, errProj])
          (by simp [successState, ho])
          (by simp [successState, hev])
          (by simp [successState, hd])
      · simp only [hs, if_false, Bool.false_eq_true]
        simp [failureOutcome, runProj, applyUpd, stopIf_eq, hc, hf, he, ho, hev, hd,
          errProj]

/-- C1 (amended): `stopExecution` immediately records `endTime`, clears the
current node and flips `isRunning` off, but `executeWorkflow` checks no
cancellation flag: a `stop()` arriving while any node is being awaited leaves
every observable of the run — dispatch order, node-update events, final
outputs, completed/failed bookkeeping, error list (up to timestamps) and the
returned success flag — exactly as in an un-stopped run.  In particular the
nodes after the currently-executing one are all still dispatched and a run
whose nodes all succeed still ends `Completed` with `success = true`. -/
theorem c1_stop_has_no_effect_on_the_run (g : GenOracle) (wf : Workflow) (i : Nat)
    (st0 : ExecState) (t0 : Nat) :
    runProj (executeWorkflow g wf (some i) st0 t0) =
      runProj (executeWorkflow g wf none st0 t0) ∧
    (∀ st t, stopExecution st t =
      { st with isRunning := false, currentNodeId := none, endTime := some t }) := by
  refine ⟨?_, fun st t => rfl⟩
  unfold executeWorkflow
  by_cases hv : (validateWorkflow wf).1 = true
  · by_cases hlen : (getTopologicalOrder wf.nodes wf.connections).length =
        wf.nodes.length
    · simp only [hv, Bool.not_true, Bool.false_eq_true, if_false, hlen, ne_eq,
        not_true_eq_false]
      exact runLoop_proj_congr g wf _ (some i) none _ _ _ rfl rfl rfl rfl rfl rfl
    · simp [hv, hlen]
  · simp [hv]

/-! ## C3: halt on first failure -/

/-- The loop's behaviour when the nodes `pre` all succeed and `x` then
fails: everything in `pre` is dispatched and completed (with its running and
completed events), `x` is dispatched, marked failed with its error recorded,
and the loop returns immediately — nothing after `x` is dispatched or
touched. -/
theorem runLoop_halt_spec (g : GenOracle) (wf : Workflow) (total : Nat) :
    ∀ (pre : List String) (x : String) (post : List String) (k : Nat) (ls : LoopState),
    (∀ id ∈ pre ++ x :: post, (nodeMapGet wf.nodes id).isSome) →
    (∀ id ∈ pre, (executeNode g id wf.nodes wf.connections).success = true) →
    (executeNode g x wf.nodes wf.connections).success = false →
    (runLoop g wf total none (List.enumFrom k (pre ++ x :: post)) ls).success = false ∧
    (runLoop g wf total none (List.enumFrom k (pre ++ x :: post)) ls).dispatched =
      ls.dispatched ++ pre ++ [x] ∧
    (runLoop g wf total none (List.enumFrom k (pre ++ x :: post)) ls).nodeEvents =
      ls.events ++ pre.flatMap (successEvents g wf) ++
        [(x, { status := some .running }), (x, { status := some .error })] ∧
    (runLoop g wf total none (List.enumFrom k (pre ++ x :: post)) ls).state.completedNodes =
      ls.st.completedNodes ++ pre ∧
    (runLoop g wf total none (List.enumFrom k (pre ++ x :: post)) ls).state.failedNodes =
      ls.st.failedNodes ++ [x] ∧
    (runLoop g wf total none (List.enumFrom k (pre ++ x :: post)) ls).state.errors =
      ls.st.errors ++ [⟨x, failMsg g wf x, "execution", ls.clock⟩] ∧
    (runLoop g wf total none (List.enumFrom k (pre ++ x :: post)) ls).errors =
      ls.st.errors ++ [⟨x, failMsg g wf x, "execution", ls.clock⟩]
  | [], x, post, k, ls, hfound, _, hx => by
    obtain ⟨node, hn⟩ := Option.isSome_iff_exists.mp (hfound x (by simp))
    simp only [List.nil_append, List.enumFrom, runLoop, hn, hx, Bool.false_eq_true,
      if_false]
    simp [failureOutcome, applyUpd, failMsg]
  | p :: pre, x, post, k, ls, hfound, hpre, hx => by
    obtain ⟨node, hn⟩ := Option.isSome_iff_exists.mp (hfound p (by simp))
    have hp : (executeNode g p wf.nodes wf.connections).success = true :=
      hpre p (by simp)
    have hred : runLoop g wf total none (List.enumFrom k ((p :: pre) ++ x :: post)) ls =
        runLoop g wf total none (List.enumFrom (k + 1) (pre ++ x :: post))
          (successState g wf total none k p node ls) := by
      show runLoop g wf total none
        ((k, p) :: List.enumFrom (k + 1) (pre ++ x :: post)) ls = _
      simp only [runLoop, hn]
      simp [hp]
    rw [hred]
    have ih := runLoop_halt_spec g wf total pre x post (k + 1)
      (successState g wf total none k p node ls)
      (fun id hid => hfound id (by simp [hid]))
      (fun id hid => hpre id (by simp [hid])) hx
    refine ⟨ih.1, ?_, ?_, ?_, ?_, ?_, ?_⟩
    · rw [ih.2.1]; simp [successState, applyUpd]
    · rw [ih.2.2.1]; simp [successState, applyUpd, successEvents]
    · rw [ih.2.2.2.1]; simp [successState, applyUpd]
    · rw [ih.2.2.2.2.1]; simp [successState, applyUpd]
    · rw [ih.2.2.2.2.2.1]; simp [successState, applyUpd]
    · rw [ih.2.2.2.2.2.2]; simp [successState, applyUpd]

/-- C3: when, in a full `executeWorkflow` run, the nodes before `x` in the
topological order all succeed and `x`'s execution fails, then `x` is appended
to `failedNodes`, its status is set to `error` (the final node-update event),
the error record is appended to `errors`, the run returns `success = false`,
and no node after `x` in the order is dispatched or receives any event:
dispatch stops at `x`. -/
theorem c3_first_failure_halts_run (g : GenOracle) (wf : Workflow) (st0 : ExecState)
    (t0 : Nat) (pre : List String) (x : String) (post : List String)
    (horder : getTopologicalOrder wf.nodes wf.connections = pre ++ x :: post)
    (hvalid : (validateWorkflow wf).1 = true)
    (hlen : (getTopologicalOrder wf.nodes wf.connections).length = wf.nodes.length)
    (hfound : ∀ id ∈ pre ++ x :: post, (nodeMapGet wf.nodes id).isSome)
    (hpre : ∀ id ∈ pre, (executeNode g id wf.nodes wf.connections).success = true)
    (hx : (executeNode g x wf.nodes wf.connections).success = false) :
    (executeWorkflow g wf none st0 t0).success = false ∧
    (executeWorkflow g wf none st0 t0).dispatched = pre ++ [x] ∧
    (executeWorkflow g wf none st0 t0).nodeEvents =
      pre.flatMap (successEvents g wf) ++
        [(x, { status := some .running }), (x, { status := some .error })] ∧
    (executeWorkflow g wf none st0 t0).state.completedNodes = pre ∧
    (executeWorkflow g wf none st0 t0).state.failedNodes = [x] ∧
    (executeWorkflow g wf none st0 t0).errors =
      [⟨x, failMsg g wf x, "execution", t0 + 1⟩] := by
  have hlen' : (pre ++ x :: post).length = wf.nodes.length := horder ▸ hlen
  have hspec := runLoop_halt_spec g wf wf.nodes.length pre x post 0
    { st := applyUpd st0
        { isRunning := some true, currentNodeId := some none, completedNodes := some [],
          failedNodes := some [], progress := some 0, errors := some [],
          startTime := some (some t0), endTime := some none },
      outputs := [], events := [], dispatched := [], clock := t0 + 1 }
    hfound hpre hx
  have hrun : executeWorkflow g wf none st0 t0 =
      runLoop g wf wf.nodes.length none (List.enumFrom 0 (pre ++ x :: post))
        { st := applyUpd st0
            { isRunning := some true, currentNodeId := some none,
              completedNodes := some [], failedNodes := some [], progress := some 0,
              errors := some [], startTime := some (some t0), endTime := some none },
          outputs := [], events := [], dispatched := [], clock := t0 + 1 } := by
    unfold executeWorkflow
    simp [hvalid, horder, hlen', List.enum]
  rw [hrun]
  refine ⟨hspec.1, ?_, ?_, ?_, ?_, ?_⟩
  · rw [hspec.2.1]; simp
  · rw [hspec.2.2.1]; simp
  · rw [hspec.2.2.2.1]; simp [applyUpd]
  · rw [hspec.2.2.2.2.1]; simp [applyUpd]
  · rw [hspec.2.2.2.2.2.2]; simp [applyUpd]

/-- C3 (witness): the chain A → B → C of `exWfHalt` (B is an addAssets node
whose handler always throws).  After the run, A is completed, B has failed
with its error recorded, C was never dispatched and its status is still
`idle`. -/
theorem c3_witness :
    (executeWorkflow echoOracle exWfHalt none initialExecState 0).success = false ∧
    (executeWorkflow echoOracle exWfHalt none initialExecState 0).dispatched =
      ["A", "B"] ∧
    (executeWorkflow echoOracle exWfHalt none initialExecState 0).state.completedNodes =
      ["A"] ∧
    (executeWorkflow echoOracle exWfHalt none initialExecState 0).state.failedNodes =
      ["B"] ∧
    (executeWorkflow echoOracle exWfHalt none initialExecState 0).errors =
      [⟨"B", failMsg echoOracle exWfHalt "B", "execution", 1⟩] ∧
    statusAfter (executeWorkflow echoOracle exWfHalt none initialExecState 0).nodeEvents
      exNodeA = NodeStatus.completed ∧
    statusAfter (executeWorkflow echoOracle exWfHalt none initialExecState 0).nodeEvents
      exNodeB = NodeStatus.error ∧
    statusAfter (executeWorkflow echoOracle exWfHalt none initialExecState 0).nodeEvents
      exNodeC = NodeStatus.idle := by
  have h := c3_first_failure_halts_run echoOracle exWfHalt initialExecState 0
    ["A"] "B" ["C"] (by decide) (by decide) (by decide)
    (by intro id hid; fin_cases hid <;> decide)
    (by intro id hid; fin_cases hid <;> decide) (by decide)
  exact ⟨h.1, h.2.1, h.2.2.2.1, h.2.2.2.2.1, h.2.2.2.2.2, by decide, by decide, by decide⟩

/-! ## C7: template substitution -/

/-- A split produces at least one chunk. -/
theorem splitSubGo_ne_nil (p : List Char) : ∀ (fuel : Nat) (s : List Char),
    splitSubGo p fuel s ≠ []
  | _, [] => by simp [splitSubGo]
  | 0, _ :: _ => by simp [splitSubGo]
  | Nat.succ f, c :: cs => by
    by_cases hpre : p.isPrefixOf (c :: cs)
    · simp [splitSubGo, hpre]
    · simp only [splitSubGo, hpre, Bool.false_eq_true, if_false]
      cases h : splitSubGo p f cs <;> simp

/-- The first chunk of a split is a prefix of the text. -/
theorem splitSubGo_head_prefix (p : List Char) : ∀ (fuel : Nat) (s h : List Char)
    (t : List (List Char)), splitSubGo p fuel s = h :: t → h <+: s
  | _, [], h, t => by
    intro he
    simp [splitSubGo] at he
    simp [he.1]
  | 0, c :: cs, h, t => by
    intro he
    simp [splitSubGo] at he
    simp [he.1]
  | Nat.succ f, c :: cs, h, t => by
    intro he
    by_cases hpre : p.isPrefixOf (c :: cs)
    · simp [splitSubGo, hpre] at he
      simp [he.1]
    · simp only [splitSubGo, hpre, Bool.false_eq_true, if_false] at he
      cases hs : splitSubGo p f cs with
      | nil => exact absurd hs (splitSubGo_ne_nil p f cs)
      | cons h0 t0 =>
        rw [hs] at he
        injection he with he1 he2
        subst he1
        have := splitSubGo_head_prefix p f cs h0 t0 hs
        exact (List.cons_prefix_cons).mpr ⟨rfl, this⟩

/-- Replacement equals the split rejoined with the replacement text: every
occurrence of the pattern is replaced, left to right, globally. -/
theorem replaceSubGo_eq_joinWith (p r : List Char) (hp : p ≠ []) :
    ∀ (fuel : Nat) (s : List Char), s.length ≤ fuel →
    replaceSubGo p r fuel s = joinWith r (splitSubGo p fuel s)
  | _, [], _ => by simp [replaceSubGo, splitSubGo, joinWith]
  | 0, c :: cs, hf => by simp at hf
  | Nat.succ f, c :: cs, hf => by
    by_cases hpre : p.isPrefixOf (c :: cs)
    · simp only [replaceSubGo, splitSubGo, hpre, if_true]
      have hlen : ((c :: cs).drop p.length).length ≤ f := by
        have hp1 : 1 ≤ p.length := List.length_pos.mpr hp
        simp only [List.length_drop, List.length_cons]
        simp only [List.length_cons] at hf
        omega
      rw [replaceSubGo_eq_joinWith p r hp f _ hlen]
      cases hs : splitSubGo p f ((c :: cs).drop p.length) with
      | nil => exact absurd hs (splitSubGo_ne_nil p f _)
      | cons h0 t0 => simp [joinWith]
    · simp only [replaceSubGo, splitSubGo, hpre, Bool.false_eq_true, if_false]
      have hlen : cs.length ≤ f := by
        simp only [List.length_cons] at hf; omega
      rw [replaceSubGo_eq_joinWith p r hp f cs hlen]
      cases hs : splitSubGo p f cs with
      | nil => exact absurd hs (splitSubGo_ne_nil p f cs)
      | cons h0 t0 =>
        cases t0 with
        | nil => simp [joinWith]
        | cons y t1 => simp [joinWith]

/-- No chunk of the split contains an occurrence of the pattern: the
replacement misses no occurrence. -/
theorem splitSubGo_no_occurrence (p : List Char) (hp : p ≠ []) :
    ∀ (fuel : Nat) (s : List Char), s.length ≤ fuel →
    ∀ chunk ∈ splitSubGo p fuel s, ¬ p <:+: chunk
  | _, [], _ => by
    intro chunk hc
    simp [splitSubGo] at hc
    simp [hc, List.infix_nil, hp]
  | 0, c :: cs, hf => by simp at hf
  | Nat.succ f, c :: cs, hf => by
    intro chunk hc hinf
    by_cases hpre : p.isPrefixOf (c :: cs)
    · simp only [splitSubGo, hpre, if_true, List.mem_cons] at hc
      have hlen : ((c :: cs).drop p.length).length ≤ f := by
        have hp1 : 1 ≤ p.length := List.length_pos.mpr hp
        simp only [List.length_drop, List.length_cons]
        simp only [List.length_cons] at hf
        omega
      rcases hc with hc | hc
      · subst hc
        exact hp (List.infix_nil.mp hinf)
      · exact splitSubGo_no_occurrence p hp f _ hlen chunk hc hinf
    · simp only [splitSubGo, hpre, Bool.false_eq_true, if_false] at hc
      have hlen : cs.length ≤ f := by
        simp only [List.length_cons] at hf; omega
      cases hs : splitSubGo p f cs with
      | nil => exact absurd hs (splitSubGo_ne_nil p f cs)
      | cons h0 t0 =>
        rw [hs] at hc
        simp only [List.mem_cons] at hc
        rcases hc with hc | hc
        · subst hc
          rcases List.infix_cons_iff.mp hinf with hpfx | htail
          · have hh : h0 <+: cs := splitSubGo_head_prefix p f cs h0 t0 hs
            have : p <+: c :: cs :=
              hpfx.trans ((List.cons_prefix_cons).mpr ⟨rfl, hh⟩)
            rw [← List.isPrefixOf_iff_prefix] at this
            exact absurd this (by simp [hpre])
          · exact splitSubGo_no_occurrence p hp f cs hlen h0 (by simp [hs]) htail
        · exact splitSubGo_no_occurrence p hp f cs hlen chunk (by simp [hs, hc]) hinf

/-- C7 (amended): each variable substitution pass is a global, case-sensitive,
left-to-right literal replacement — the result is the leftmost split on
`{{name}}` rejoined by the value's string form, and no chunk of that split
contains a further occurrence; the concrete conjuncts pin the scenario: the
substitution alone yields `Hello Ada`, but the code then appends the
input-context block (the substituted prompt no longer contains `{{` and the
node has an input), so with an echoing model Gen's result — and a text-format
Out's result — is `Hello Ada\n\nInputs:\nIn: Ada`; the casing conjunct shows
`{{in}}` is not substituted for the variable `In` while every `{{In}}`
occurrence is. -/
theorem c7_substitution_global_and_case_sensitive :
    (∀ (p r s : List Char), p ≠ [] →
      replaceSub p r s = joinWith r (splitSub p s)) ∧
    (∀ (p s chunk : List Char), p ≠ [] → chunk ∈ splitSub p s → ¬ p <:+: chunk) ∧
    substituteVariables [("In", some (.vstr "Ada"))] "Hello \x7b\x7bIn\x7d\x7d" =
      "Hello Ada" ∧
    substituteVariables [("In", some (.vstr "Ada"))]
      "x \x7b\x7bIn\x7d\x7d \x7b\x7bin\x7d\x7d \x7b\x7bIn\x7d\x7d" =
      "x Ada \x7b\x7bin\x7d\x7d Ada" ∧
    buildGeneratePrompt scNodeGen
      (buildExecutionContext scNodeGen [scNodeIn, scNodeGen, scNodeOut] scConns) =
      scGenActual ∧
    executeNode echoOracle "gen1" [scNodeIn, scNodeGen, scNodeOut] scConns =
      { success := true, result := some (.vstr scGenActual), error := none } ∧
    (executeNode echoOracle "out1"
      [scNodeIn, { scNodeGen with status := .completed, result := some (.vstr scGenActual) },
        scNodeOut] scConns).result = some (.vstr scGenActual) := by
  refine ⟨?_, ?_, by decide, by decide, by decide, by decide, by decide⟩
  · intro p r s hp
    have hpe : p.isEmpty = false := by simp [List.isEmpty_iff, hp]
    simp only [replaceSub, splitSub, hpe, Bool.false_eq_true, if_false]
    exact replaceSubGo_eq_joinWith p r hp s.length s le_rfl
  · intro p s chunk hp hc
    have hpe : p.isEmpty = false := by simp [List.isEmpty_iff, hp]
    simp only [splitSub, hpe, Bool.false_eq_true, if_false] at hc
    exact splitSubGo_no_occurrence p hp s.length s le_rfl chunk hc

/-- C7 (counterexample): in the In → Gen → Out scenario the substitution step
itself produces `Hello Ada`, but the prompt the model receives — hence Gen's
result even under a model that echoes its prompt — carries the appended
input-context block and is not `Hello Ada`. -/
theorem c7_counterexample :
    substituteVariables [("In", some (.vstr "Ada"))] "Hello \x7b\x7bIn\x7d\x7d" =
      "Hello Ada" ∧
    (executeNode echoOracle "gen1" [scNodeIn, scNodeGen, scNodeOut] scConns).result =
      some (.vstr "Hello Ada\n\nInputs:\nIn: Ada") ∧
    (executeNode echoOracle "gen1" [scNodeIn, scNodeGen, scNodeOut] scConns).result ≠
      some (.vstr "Hello Ada") := by
  refine ⟨by decide, by decide, by decide⟩

/-! ## C10 / C4: Kahn's algorithm -/

/-- Specification of one neighbour pass: the queue is extended by a
duplicate-free batch of enqueued ids, each of which is a neighbour whose
in-degree was positive before the pass and non-positive after; degrees drop
by the neighbour multiset's count. -/
theorem processNeighbors_spec : ∀ (nbs q : List String) (deg : String → Int),
    ∃ enq : List String,
    (processNeighbors nbs q deg).1 = q ++ enq ∧
    (∀ k, (processNeighbors nbs q deg).2 k = deg k - (nbs.count k : Int)) ∧
    enq.Nodup ∧
    (∀ x ∈ enq, x ∈ nbs ∧ 0 < deg x ∧ deg x - (nbs.count x : Int) ≤ 0)
  | [], q, deg => ⟨[], by simp [processNeighbors], by simp [processNeighbors], by simp,
      by simp⟩
  | nb :: nbs, q, deg => by
    have hcount : ∀ k, ((nb :: nbs).count k : Int) =
        (nbs.count k : Int) + (if k = nb then 1 else 0) := by
      intro k
      by_cases h : k = nb
      · subst h; simp [List.count_cons]
      · simp [List.count_cons, h]
    by_cases hd : deg nb - 1 = 0
    · obtain ⟨enq, h1, h2, h3, h4⟩ := processNeighbors_spec nbs (q ++ [nb])
        (fun k => if k = nb then deg nb - 1 else deg k)
      refine ⟨nb :: enq, ?_, ?_, ?_, ?_⟩
      · show (processNeighbors nbs (if deg nb - 1 = 0 then q ++ [nb] else q)
          (fun k => if k = nb then deg nb - 1 else deg k)).1 = q ++ nb :: enq
        rw [if_pos hd, h1]
        simp
      · intro k
        show (processNeighbors nbs (if deg nb - 1 = 0 then q ++ [nb] else q)
          (fun k => if k = nb then deg nb - 1 else deg k)).2 k =
          deg k - ((nb :: nbs).count k : Int)
        rw [if_pos hd, h2 k, hcount k]
        by_cases hk : k = nb <;> simp [hk] <;> omega
      · refine List.nodup_cons.mpr ⟨?_, h3⟩
        intro hmem
        have := (h4 nb hmem).2.1
        simp at this
        omega
      · intro x hx
        rcases List.mem_cons.mp hx with hx | hx
        · subst hx
          refine ⟨by simp, by omega, ?_⟩
          have h0 : (0 : Int) ≤ (nbs.count x : Int) := by positivity
          rw [hcount x]
          simp
          omega
        · obtain ⟨hm, hpos, hle⟩ := h4 x hx
          have hxnb : x ≠ nb := by
            intro he; subst he; simp at hpos; omega
          simp only [hxnb, if_false] at hpos hle
          refine ⟨by simp [hm], hpos, ?_⟩
          rw [hcount x]
          simp [hxnb]
          omega
    · obtain ⟨enq, h1, h2, h3, h4⟩ := processNeighbors_spec nbs q
        (fun k => if k = nb then deg nb - 1 else deg k)
      refine ⟨enq, ?_, ?_, h3, ?_⟩
      · show (processNeighbors nbs (if deg nb - 1 = 0 then q ++ [nb] else q)
          (fun k => if k = nb then deg nb - 1 else deg k)).1 = q ++ enq
        rw [if_neg hd, h1]
      · intro k
        show (processNeighbors nbs (if deg nb - 1 = 0 then q ++ [nb] else q)
          (fun k => if k = nb then deg nb - 1 else deg k)).2 k =
          deg k - ((nb :: nbs).count k : Int)
        rw [if_neg hd, h2 k, hcount k]
        by_cases hk : k = nb <;> simp [hk] <;> omega
      · intro x hx
        obtain ⟨hm, hpos, hle⟩ := h4 x hx
        by_cases hxnb : x = nb
        · subst hxnb
          simp only [if_pos rfl] at hpos hle
          refine ⟨by simp, by omega, ?_⟩
          rw [hcount x]
          simp
          omega
        · simp only [hxnb, if_false] at hpos hle
          refine ⟨by simp [hm], hpos, ?_⟩
          rw [hcount x]
          simp [hxnb]
          omega

/-- Degrees never increase over a neighbour pass. -/
theorem processNeighbors_deg_le (nbs q : List String) (deg : String → Int) (k : String) :
    (processNeighbors nbs q deg).2 k ≤ deg k := by
  obtain ⟨enq, _, h2, _, _⟩ := processNeighbors_spec nbs q deg
  rw [h2 k]
  have : (0 : Int) ≤ (nbs.count k : Int) := by positivity
  omega

/-- Everything the loop emits was in the queue or had positive in-degree. -/
theorem kahnLoop_mem_src (adj : String → List String) :
    ∀ (fuel : Nat) (q : List String) (deg : String → Int) (x : String),
    x ∈ kahnLoop adj fuel q deg → x ∈ q ∨ 0 < deg x
  | _, [], _, x => by simp [kahnLoop]
  | 0, _ :: _, _, x => by simp [kahnLoop]
  | Nat.succ f, cur :: rest, deg, x => by
    intro hx
    rcases List.mem_cons.mp hx with hx | hx
    · exact Or.inl (by simp [hx])
    · obtain ⟨enq, h1, h2, _, h4⟩ := processNeighbors_spec (adj cur) rest deg
      rcases kahnLoop_mem_src adj f _ _ x hx with hq | hpos
      · rw [h1] at hq
        rcases List.mem_append.mp hq with hq | hq
        · exact Or.inl (by simp [hq])
        · exact Or.inr (h4 x hq).2.1
      · right
        have := processNeighbors_deg_le (adj cur) rest deg x
        omega

/-- Everything the loop emits was seeded or is some node's adjacency target. -/
theorem kahnLoop_mem_adj (adj : String → List String) :
    ∀ (fuel : Nat) (q : List String) (deg : String → Int) (x : String),
    x ∈ kahnLoop adj fuel q deg → x ∈ q ∨ ∃ s, x ∈ adj s
  | _, [], _, x => by simp [kahnLoop]
  | 0, _ :: _, _, x => by simp [kahnLoop]
  | Nat.succ f, cur :: rest, deg, x => by
    intro hx
    rcases List.mem_cons.mp hx with hx | hx
    · exact Or.inl (by simp [hx])
    · obtain ⟨enq, h1, _, _, h4⟩ := processNeighbors_spec (adj cur) rest deg
      rcases kahnLoop_mem_adj adj f _ _ x hx with hq | hs
      · rw [h1] at hq
        rcases List.mem_append.mp hq with hq | hq
        · exact Or.inl (by simp [hq])
        · exact Or.inr ⟨cur, (h4 x hq).1⟩
      · exact Or.inr hs

/-- `adjWeight` over an extended history. -/
theorem adjWeight_append (adj : String → List String) (hist : List String)
    (cur k : String) :
    adjWeight adj (hist ++ [cur]) k = adjWeight adj hist k + (adj cur).count k := by
  simp [adjWeight]

/-- The invariant survives one loop iteration. -/
theorem KahnInv_step (deg0 : String → Int) (adj : String → List String)
    (hist : List String) (cur : String) (rest : List String) (deg : String → Int)
    (hinv : KahnInv deg0 adj hist (cur :: rest) deg) :
    KahnInv deg0 adj (hist ++ [cur]) (processNeighbors (adj cur) rest deg).1
      (processNeighbors (adj cur) rest deg).2 := by
  obtain ⟨hnd, hdeg, hq, hh⟩ := hinv
  obtain ⟨enq, h1, h2, h3, h4⟩ := processNeighbors_spec (adj cur) rest deg
  have hqle : ∀ k ∈ cur :: rest, deg k ≤ 0 := hq
  refine ⟨?_, ?_, ?_, ?_⟩
  · rw [h1]
    have heq : (hist ++ [cur]) ++ (rest ++ enq) = (hist ++ cur :: rest) ++ enq := by
      simp
    rw [heq, List.nodup_append]
    refine ⟨hnd, h3, ?_⟩
    intro a ha hae
    have hpos := (h4 a hae).2.1
    rcases List.mem_append.mp ha with ha | ha
    · exact absurd hpos (by have := hh a ha; omega)
    · exact absurd hpos (by have := hqle a ha; omega)
  · intro k
    rw [h2 k, hdeg k, adjWeight_append]
    push_cast
    omega
  · intro k hk
    rw [h1] at hk
    rcases List.mem_append.mp hk with hk | hk
    · have := hqle k (by simp [hk])
      have := processNeighbors_deg_le (adj cur) rest deg k
      omega
    · have := (h4 k hk).2.2
      rw [h2 k]
      omega
  · intro k hk
    rcases List.mem_append.mp hk with hk | hk
    · have := hh k hk
      have := processNeighbors_deg_le (adj cur) rest deg k
      omega
    · have hkc : k = cur := by simpa using hk
      have h5 := hqle cur (by simp)
      have h6 := processNeighbors_deg_le (adj cur) rest deg cur
      rw [hkc]
      omega

/-- Counting a pointwise-disjoint disjunction splits into a sum. -/
theorem countP_or_disjoint {α : Type} (l : List α) (A B : α → Bool)
    (h : ∀ a ∈ l, ¬(A a = true ∧ B a = true)) :
    l.countP (fun a => A a || B a) = l.countP A + l.countP B := by
  induction l with
  | nil => simp
  | cons a l ih =>
    have ha := h a (by simp)
    have ih' := ih (fun b hb => h b (by simp [hb]))
    by_cases hA : A a = true
    · have hB : B a = false := by
        cases hBv : B a
        · rfl
        · exact absurd ⟨hA, hBv⟩ ha
      simp [List.countP_cons, hA, hB, ih']
      omega
    · have hA' : A a = false := by cases hAv : A a; rfl; exact absurd hAv hA
      by_cases hB : B a = true
      · simp [List.countP_cons, hA', hB, ih']
        omega
      · have hB' : B a = false := by cases hBv : B a; rfl; exact absurd hBv hB
        simp [List.countP_cons, hA', hB', ih']

/-- The total decremented weight after popping the (duplicate-free) history:
one per connection into `k` whose source is a popped node id. -/
theorem adjWeight_eq_countP (nodes : List Node) (conns : List Connection) :
    ∀ (hist : List String), hist.Nodup → ∀ k,
    adjWeight (adjOf nodes conns) hist k =
      (conns.filter (fun c => c.targetNodeId = k)).countP
        (fun c => hist.contains c.sourceNodeId &&
          (nodes.map Node.id).contains c.sourceNodeId) := by
  intro hist
  induction hist with
  | nil =>
    intro _ k
    simp [adjWeight, List.countP_eq_zero]
  | cons h hist ih =>
    intro hnd k
    obtain ⟨hnotmem, hnd'⟩ := List.nodup_cons.mp hnd
    have hsum : adjWeight (adjOf nodes conns) (h :: hist) k =
        ((adjOf nodes conns) h).count k + adjWeight (adjOf nodes conns) hist k := by
      simp [adjWeight]
    rw [hsum, ih hnd' k]
    have hcnt : ((adjOf nodes conns) h).count k =
        (conns.filter (fun c => c.targetNodeId = k)).countP
          (fun c => (c.sourceNodeId == h) &&
            (nodes.map Node.id).contains c.sourceNodeId) := by
      by_cases hn : (nodes.map Node.id).contains h = true
      · have hn' : ∃ a ∈ nodes, a.id = h := by simpa using hn
        simp only [adjOf, hn, if_true]
        rw [List.count_eq_countP, List.countP_map, List.countP_filter,
          List.countP_filter]
        refine List.countP_congr ?_
        intro c _
        by_cases h1 : c.targetNodeId = k <;> by_cases h2 : c.sourceNodeId = h <;>
          simp [Function.comp, h1, h2, hn']
      · simp only [adjOf]
        rw [if_neg hn]
        simp only [List.count_nil]
        symm
        rw [List.countP_eq_zero]
        intro c hc
        simp only [Bool.and_eq_true, beq_iff_eq]
        rintro ⟨he, hmem⟩
        rw [he] at hmem
        exact absurd hmem (by simpa using hn)
    rw [hcnt]
    have hdisj : ∀ c ∈ conns.filter (fun c => c.targetNodeId = k),
        ¬(((c.sourceNodeId == h) && (nodes.map Node.id).contains c.sourceNodeId) = true ∧
          (hist.contains c.sourceNodeId &&
            (nodes.map Node.id).contains c.sourceNodeId) = true) := by
      intro c _
      rintro ⟨h1, h2⟩
      simp only [Bool.and_eq_true, beq_iff_eq] at h1 h2
      rw [h1.1] at h2
      exact hnotmem (by simpa using h2.1)
    have hsplit := countP_or_disjoint (conns.filter (fun c => c.targetNodeId = k))
      (fun c => (c.sourceNodeId == h) && (nodes.map Node.id).contains c.sourceNodeId)
      (fun c => hist.contains c.sourceNodeId &&
        (nodes.map Node.id).contains c.sourceNodeId) hdisj
    have hpt : (conns.filter (fun c => c.targetNodeId = k)).countP
        (fun c => (h :: hist).contains c.sourceNodeId &&
          (nodes.map Node.id).contains c.sourceNodeId) =
        (conns.filter (fun c => c.targetNodeId = k)).countP
          (fun c => ((c.sourceNodeId == h) &&
              (nodes.map Node.id).contains c.sourceNodeId) ||
            (hist.contains c.sourceNodeId &&
              (nodes.map Node.id).contains c.sourceNodeId)) := by
      refine List.countP_congr ?_
      intro c _
      by_cases h1 : c.sourceNodeId = h <;>
        by_cases h2 : c.sourceNodeId ∈ hist <;>
        by_cases h3 : c.sourceNodeId ∈ nodes.map Node.id <;>
        simp [h1, h2, h3]
    rw [hpt, hsplit]

/-- When a key's running in-degree has reached zero, every connection into it
comes from a node id that the loop has already popped. -/
theorem kahn_sources_popped (nodes : List Node) (conns : List Connection)
    (hist : List String) (hnd : hist.Nodup) (k : String)
    (hle : kahnDeg0 conns k - (adjWeight (adjOf nodes conns) hist k : Int) ≤ 0) :
    ∀ c ∈ conns, c.targetNodeId = k →
      c.sourceNodeId ∈ hist ∧ c.sourceNodeId ∈ nodes.map Node.id := by
  have hW := adjWeight_eq_countP nodes conns hist hnd k
  have hlen : (conns.filter (fun c => c.targetNodeId = k)).countP
      (fun c => hist.contains c.sourceNodeId &&
        (nodes.map Node.id).contains c.sourceNodeId) =
      (conns.filter (fun c => c.targetNodeId = k)).length := by
    have hub := List.countP_le_length
      (p := fun c => hist.contains c.sourceNodeId &&
        (nodes.map Node.id).contains c.sourceNodeId)
      (l := conns.filter (fun c => c.targetNodeId = k))
    have hdeg : kahnDeg0 conns k =
        ((conns.filter (fun c => c.targetNodeId = k)).length : Int) := rfl
    rw [hdeg, hW] at hle
    omega
  intro c hc htgt
  have hcin : c ∈ conns.filter (fun c => c.targetNodeId = k) := by
    simp [List.mem_filter, hc, htgt]
  have := List.countP_eq_length.mp hlen c hcin
  simp only [Bool.and_eq_true] at this
  exact ⟨by simpa using this.1, by simpa using this.2⟩

/-- Main ordering lemma: whenever a connection's target is emitted by the
loop, its source was either already popped before the loop started, or is
emitted strictly earlier (as a two-element sublist). -/
theorem kahnLoop_edge_order (nodes : List Node) (conns : List Connection) :
    ∀ (fuel : Nat) (hist q : List String) (deg : String → Int),
    KahnInv (kahnDeg0 conns) (adjOf nodes conns) hist q deg →
    ∀ c ∈ conns,
      c.targetNodeId ∈ kahnLoop (adjOf nodes conns) fuel q deg →
      c.sourceNodeId ∈ hist ∨
      [c.sourceNodeId, c.targetNodeId].Sublist (kahnLoop (adjOf nodes conns) fuel q deg)
  | _, hist, [], deg => by simp [kahnLoop]
  | 0, hist, _ :: _, deg => by simp [kahnLoop]
  | Nat.succ f, hist, cur :: rest, deg => by
    intro hinv c hc htgt
    have hstep := KahnInv_step (kahnDeg0 conns) (adjOf nodes conns) hist cur rest deg hinv
    rcases List.mem_cons.mp htgt with hcur | htl
    · left
      have hdegcur : deg cur ≤ 0 := hinv.2.2.1 cur (by simp)
      rw [hinv.2.1 cur] at hdegcur
      have := kahn_sources_popped nodes conns hist
        (by have := hinv.1; rw [List.nodup_append] at this; exact this.1) cur hdegcur
        c hc hcur
      exact this.1
    · rcases kahnLoop_edge_order nodes conns f (hist ++ [cur]) _ _ hstep c hc htl with
        hsrc | hsub
      · rcases List.mem_append.mp hsrc with hsrc | hsrc
        · exact Or.inl hsrc
        · right
          have hc2 : c.sourceNodeId = cur := by simpa using hsrc
          rw [hc2]
          exact (List.singleton_sublist.mpr htl).cons₂ cur
      · exact Or.inr (hsub.cons cur)

/-- The loop never emits an id twice. -/
theorem kahnLoop_nodup (nodes : List Node) (conns : List Connection) :
    ∀ (fuel : Nat) (hist q : List String) (deg : String → Int),
    KahnInv (kahnDeg0 conns) (adjOf nodes conns) hist q deg →
    (kahnLoop (adjOf nodes conns) fuel q deg).Nodup
  | _, hist, [], deg => by simp [kahnLoop]
  | 0, hist, _ :: _, deg => by simp [kahnLoop]
  | Nat.succ f, hist, cur :: rest, deg => by
    intro hinv
    have hstep := KahnInv_step (kahnDeg0 conns) (adjOf nodes conns) hist cur rest deg hinv
    refine List.nodup_cons.mpr ⟨?_, kahnLoop_nodup nodes conns f (hist ++ [cur]) _ _ hstep⟩
    intro hmem
    obtain ⟨enq, h1, h2, _, h4⟩ :=
      processNeighbors_spec ((adjOf nodes conns) cur) rest deg
    have hdegcur : deg cur ≤ 0 := hinv.2.2.1 cur (by simp)
    rcases kahnLoop_mem_src (adjOf nodes conns) f _ _ cur hmem with hq | hpos
    · rw [h1] at hq
      rcases List.mem_append.mp hq with hq | hq
      · have hnd := hinv.1
        rw [List.nodup_append] at hnd
        exact absurd hq (List.nodup_cons.mp hnd.2.1).1
      · have := (h4 cur hq).2.1
        omega
    · have := processNeighbors_deg_le ((adjOf nodes conns) cur) rest deg cur
      omega

/-- `dedupFirstGo` produces a duplicate-free sublist of its input avoiding
`seen`. -/
theorem dedupFirstGo_spec : ∀ (l seen : List String),
    (dedupFirstGo seen l).Nodup ∧
    ∀ x ∈ dedupFirstGo seen l, x ∉ seen ∧ x ∈ l
  | [], seen => by simp [dedupFirstGo]
  | a :: l, seen => by
    by_cases ha : a ∈ seen
    · have hgo : dedupFirstGo seen (a :: l) = dedupFirstGo seen l := by
        simp [dedupFirstGo, ha]
      obtain ⟨h1, h2⟩ := dedupFirstGo_spec l seen
      rw [hgo]
      refine ⟨h1, ?_⟩
      intro x hx
      exact ⟨(h2 x hx).1, by simp [(h2 x hx).2]⟩
    · have hgo : dedupFirstGo seen (a :: l) = a :: dedupFirstGo (a :: seen) l := by
        simp [dedupFirstGo, ha]
      obtain ⟨h1, h2⟩ := dedupFirstGo_spec l (a :: seen)
      rw [hgo]
      refine ⟨List.nodup_cons.mpr ⟨?_, h1⟩, ?_⟩
      · intro hmem
        exact (h2 a hmem).1 (by simp)
      · intro x hx
        rcases List.mem_cons.mp hx with hx | hx
        · subst hx
          exact ⟨ha, by simp⟩
        · obtain ⟨hns, hm⟩ := h2 x hx
          exact ⟨fun hc => hns (by simp [hc]), by simp [hm]⟩

/-- `dedupFirst` is duplicate-free. -/
theorem dedupFirst_nodup (l : List String) : (dedupFirst l).Nodup :=
  (dedupFirstGo_spec l []).1

/-- `dedupFirst` keeps only elements of its input. -/
theorem dedupFirst_subset (l : List String) : ∀ x ∈ dedupFirst l, x ∈ l :=
  fun x hx => ((dedupFirstGo_spec l []).2 x hx).2

/-- The invariant holds at the start of Kahn's loop. -/
theorem KahnInv_init (nodes : List Node) (conns : List Connection) :
    KahnInv (kahnDeg0 conns) (adjOf nodes conns) []
      ((kahnKeys nodes conns).filter (fun k => kahnDeg0 conns k = 0))
      (kahnDeg0 conns) := by
  refine ⟨?_, ?_, ?_, by simp⟩
  · simp only [List.nil_append]
    exact (dedupFirst_nodup _).filter _
  · intro k
    simp [adjWeight]
  · intro k hk
    have := List.of_mem_filter hk
    simp only [decide_eq_true_eq] at this
    omega

/-- C10 (amended): the sequence returned by `getTopologicalOrder` contains
each id at most once; every id in it is a node id or the target id of some
connection (so it contains only node ids whenever every connection's endpoints
reference listed nodes); and it respects every edge: whenever a connection's
source and target both appear, the source appears strictly before the
target. -/
theorem c10_order_properties (nodes : List Node) (conns : List Connection) :
    (∀ x ∈ getTopologicalOrder nodes conns,
      x ∈ nodes.map Node.id ∨ x ∈ conns.map Connection.targetNodeId) ∧
    (getTopologicalOrder nodes conns).Nodup ∧
    (∀ c ∈ conns, c.sourceNodeId ∈ getTopologicalOrder nodes conns →
      c.targetNodeId ∈ getTopologicalOrder nodes conns →
      [c.sourceNodeId, c.targetNodeId].Sublist (getTopologicalOrder nodes conns)) := by
  refine ⟨?_, ?_, ?_⟩
  · intro x hx
    rcases kahnLoop_mem_adj (adjOf nodes conns) _ _ _ x hx with hq | ⟨s, hs⟩
    · have hk := List.mem_of_mem_filter hq
      rcases List.mem_append.mp (dedupFirst_subset _ x hk) with h | h
      · exact Or.inl h
      · exact Or.inr h
    · right
      simp only [adjOf] at hs
      by_cases hn : (nodes.map Node.id).contains s = true
      · rw [if_pos hn] at hs
        obtain ⟨c, hc, hcx⟩ := List.mem_map.mp hs
        exact hcx ▸ List.mem_map_of_mem _ (List.mem_of_mem_filter hc)
      · rw [if_neg hn] at hs
        simp at hs
  · exact kahnLoop_nodup nodes conns _ [] _ _ (KahnInv_init nodes conns)
  · intro c hc _ htgt
    rcases kahnLoop_edge_order nodes conns _ [] _ _ (KahnInv_init nodes conns)
      c hc htgt with h | h
    · simp at h
    · exact h

/-- C10 (counterexample): on one node `A` with a connection to the
non-existent id `X`, the order the code returns contains `X`, which is not
the id of any node in the input list — refuting the claim that the sequence
contains only ids of nodes. -/
theorem c10_counterexample :
    getTopologicalOrder exWfDangling.nodes exWfDangling.connections = ["A", "X"] ∧
    "X" ∈ getTopologicalOrder exWfDangling.nodes exWfDangling.connections ∧
    "X" ∉ exWfDangling.nodes.map Node.id := by
  refine ⟨by decide, by decide, by decide⟩

/-- In a duplicate-free list, a two-element sublist orders the indexes. -/
theorem sublist_pair_indexOf_lt : ∀ (l : List String), l.Nodup →
    ∀ a b, [a, b].Sublist l → l.indexOf a < l.indexOf b
  | [], _, a, b, hs => by simp at hs
  | x :: l, hnd, a, b, hs => by
    obtain ⟨hx, hnd'⟩ := List.nodup_cons.mp hnd
    cases hs with
    | cons _ hs' =>
      have ha : a ∈ l := hs'.subset (by simp)
      have hb : b ∈ l := hs'.subset (by simp)
      have hax : a ≠ x := fun h => hx (h ▸ ha)
      have hbx : b ≠ x := fun h => hx (h ▸ hb)
      rw [List.indexOf_cons_ne _ (Ne.symm hax),
        List.indexOf_cons_ne _ (Ne.symm hbx)]
      have := sublist_pair_indexOf_lt l hnd' a b hs'
      omega
    | cons₂ _ hs' =>
      have hb : b ∈ l := hs'.subset (by simp)
      have hba : b ≠ x := fun h => hx (h ▸ hb)
      rw [List.indexOf_cons_self]
      rw [List.indexOf_cons_ne _ (Ne.symm hba)]
      omega

/-- Walking a chain of respected edges strictly increases the index. -/
theorem chain_indexOf_lt (conns : List Connection) (res : List String)
    (hnd : res.Nodup)
    (hedge : ∀ a b, edgeRel conns a b → b ∈ res → [a, b].Sublist res)
    (hmem : ∀ x, (∃ cc ∈ conns, cc.targetNodeId = x) → x ∈ res) :
    ∀ (l : List String) (v : String), List.Chain (edgeRel conns) v l →
    ∀ (hne : l ≠ []), res.indexOf v < res.indexOf (l.getLast hne) := by
  intro l
  induction l with
  | nil => intro v _ h; exact absurd rfl h
  | cons b l ih =>
    intro v hchain _
    rcases hchain with _ | ⟨hvb, hchain'⟩
    have hbmem : b ∈ res := by
      refine hmem b ?_
      obtain ⟨cc, hcc, h1, h2⟩ := hvb
      exact ⟨cc, hcc, h2⟩
    have hvb' : res.indexOf v < res.indexOf b :=
      sublist_pair_indexOf_lt res hnd v b (hedge v b hvb hbmem)
    cases l with
    | nil => simpa using hvb'
    | cons c l' =>
      have := ih b hchain' (by simp)
      rw [List.getLast_cons (by simp)]
      omega

/-- `executeWorkflow` when the structural validation fails: the validator
errors become validation-type workflow errors and nothing is dispatched. -/
theorem executeWorkflow_invalid (g : GenOracle) (wf : Workflow) (st0 : ExecState)
    (t0 : Nat) (hv : (validateWorkflow wf).1 = false) :
    executeWorkflow g wf none st0 t0 =
      { success := false, finalOutputs := [],
        state := applyUpd
          (applyUpd st0
            { isRunning := some true, currentNodeId := some none,
              completedNodes := some [], failedNodes := some [], progress := some 0,
              errors := some [], startTime := some (some t0), endTime := some none })
          { isRunning := some false,
            errors := some (((validateWorkflow wf).2.enum).map
              (fun p => ⟨"", p.2, "validation", t0 + 1 + p.1⟩)),
            endTime := some (some (t0 + 1 + (validateWorkflow wf).2.length)) },
        errors := ((validateWorkflow wf).2.enum).map
          (fun p => ⟨"", p.2, "validation", t0 + 1 + p.1⟩),
        nodeEvents := [], dispatched := [],
        clock := t0 + 1 + (validateWorkflow wf).2.length + 1 } := by
  unfold executeWorkflow
  simp [hv]

/-- `executeWorkflow` when validation passes but the topological order is
short: the single circular-dependency error is recorded and nothing is
dispatched. -/
theorem executeWorkflow_mismatch (g : GenOracle) (wf : Workflow) (st0 : ExecState)
    (t0 : Nat) (hv : (validateWorkflow wf).1 = true)
    (hne : (getTopologicalOrder wf.nodes wf.connections).length ≠ wf.nodes.length) :
    executeWorkflow g wf none st0 t0 =
      { success := false, finalOutputs := [],
        state := applyUpd
          (applyUpd st0
            { isRunning := some true, currentNodeId := some none,
              completedNodes := some [], failedNodes := some [], progress := some 0,
              errors := some [], startTime := some (some t0), endTime := some none })
          { isRunning := some false,
            errors := some [⟨"",
              "Workflow contains circular dependencies that prevent execution",
              "validation", t0 + 1⟩],
            endTime := some (some (t0 + 1 + 1)) },
        errors := [⟨"", "Workflow contains circular dependencies that prevent execution",
          "validation", t0 + 1⟩],
        nodeEvents := [], dispatched := [], clock := t0 + 1 + 2 } := by
  unfold executeWorkflow
  simp [hv, hne]

/-- C4: for every graph satisfying the data-model invariants (unique node
ids, connection endpoints referencing listed nodes) that contains at least
one directed cycle — anywhere in the graph, not only from a distinguished
root — the topological order is strictly shorter than the node count, and the
coordinator treats the graph as fatally invalid: the run fails with
`success = false`, dispatches no node, and records only validation-type
errors; when the structural validation somehow passes, the length mismatch
branch records exactly the cycle error. -/
theorem c4_cycle_shortens_order_and_blocks_run (g : GenOracle) (wf : Workflow)
    (st0 : ExecState) (t0 : Nat)
    (hids : (wf.nodes.map Node.id).Nodup)
    (hconn : ∀ c ∈ wf.connections, c.sourceNodeId ∈ wf.nodes.map Node.id ∧
      c.targetNodeId ∈ wf.nodes.map Node.id)
    (hcyc : HasCycle wf.connections) :
    (getTopologicalOrder wf.nodes wf.connections).length < wf.nodes.length ∧
    (executeWorkflow g wf none st0 t0).success = false ∧
    (executeWorkflow g wf none st0 t0).dispatched = [] ∧
    (executeWorkflow g wf none st0 t0).errors ≠ [] ∧
    (∀ e ∈ (executeWorkflow g wf none st0 t0).errors, e.type = "validation") ∧
    ((validateWorkflow wf).1 = true →
      (executeWorkflow g wf none st0 t0).errors =
        [⟨"", "Workflow contains circular dependencies that prevent execution",
          "validation", t0 + 1⟩]) := by
  have horder := c10_order_properties wf.nodes wf.connections
  obtain ⟨hmemO, hndO, hordO⟩ := horder
  have hsub : ∀ x ∈ getTopologicalOrder wf.nodes wf.connections,
      x ∈ wf.nodes.map Node.id := by
    intro x hx
    rcases hmemO x hx with h | h
    · exact h
    · obtain ⟨c, hc, hcx⟩ := List.mem_map.mp h
      exact hcx ▸ (hconn c hc).2
  have hshort : (getTopologicalOrder wf.nodes wf.connections).length <
      wf.nodes.length := by
    by_contra hge
    push_neg at hge
    set res := getTopologicalOrder wf.nodes wf.connections with hres
    have hlenids : (wf.nodes.map Node.id).length = wf.nodes.length := by simp
    have hsubF : res.toFinset ⊆ (wf.nodes.map Node.id).toFinset := by
      intro x hx
      rw [List.mem_toFinset] at hx ⊢
      exact hsub x hx
    have hcard1 : res.toFinset.card = res.length := List.toFinset_card_of_nodup hndO
    have hcard2 : (wf.nodes.map Node.id).toFinset.card =
        (wf.nodes.map Node.id).length := List.toFinset_card_of_nodup hids
    have hFeq : res.toFinset = (wf.nodes.map Node.id).toFinset := by
      refine Finset.eq_of_subset_of_card_le hsubF ?_
      omega
    have hall : ∀ x ∈ wf.nodes.map Node.id, x ∈ res := by
      intro x hx
      have : x ∈ (wf.nodes.map Node.id).toFinset := List.mem_toFinset.mpr hx
      rw [← hFeq] at this
      exact List.mem_toFinset.mp this
    obtain ⟨v, rest, hchain⟩ := hcyc
    have hmemT : ∀ x, (∃ cc ∈ wf.connections, cc.targetNodeId = x) → x ∈ res := by
      rintro x ⟨cc, hcc, hx⟩
      exact hall x (hx ▸ (hconn cc hcc).2)
    have hedge : ∀ a b, edgeRel wf.connections a b → b ∈ res →
        [a, b].Sublist res := by
      intro a b hab hb
      obtain ⟨cc, hcc, h1, h2⟩ := hab
      have ha : a ∈ res := by
        refine hall a ?_
        rw [← h1]
        exact (hconn cc hcc).1
      have := hordO cc hcc (h1.symm ▸ ha) (h2.symm ▸ hb)
      rw [h1, h2] at this
      exact this
    have hlast : (rest ++ [v]).getLast (by simp) = v := by
      simp
    have := chain_indexOf_lt wf.connections res hndO hedge hmemT (rest ++ [v]) v
      hchain (by simp)
    rw [hlast] at this
    omega
  refine ⟨hshort, ?_, ?_, ?_, ?_, ?_⟩
  · by_cases hv : (validateWorkflow wf).1 = true
    · rw [executeWorkflow_mismatch g wf st0 t0 hv (by omega)]
    · rw [executeWorkflow_invalid g wf st0 t0 (by simpa using hv)]
  · by_cases hv : (validateWorkflow wf).1 = true
    · rw [executeWorkflow_mismatch g wf st0 t0 hv (by omega)]
    · rw [executeWorkflow_invalid g wf st0 t0 (by simpa using hv)]
  · by_cases hv : (validateWorkflow wf).1 = true
    · rw [executeWorkflow_mismatch g wf st0 t0 hv (by omega)]
      simp
    · rw [executeWorkflow_invalid g wf st0 t0 (by simpa using hv)]
      have hval2 : (validateWorkflow wf).2 ≠ [] := by
        intro hnil
        have h12 : (validateWorkflow wf).1 = (validateWorkflow wf).2.isEmpty := rfl
        rw [h12, hnil] at hv
        simp at hv
      simp only [ne_eq, List.map_eq_nil_iff, List.enum_eq_nil]
      exact hval2
  · by_cases hv : (validateWorkflow wf).1 = true
    · rw [executeWorkflow_mismatch g wf st0 t0 hv (by omega)]
      intro e he
      simp at he
      rw [he]
    · rw [executeWorkflow_invalid g wf st0 t0 (by simpa using hv)]
      intro e he
      simp only [List.mem_map] at he
      obtain ⟨p, _, hp⟩ := he
      rw [← hp]
  · intro hv
    rw [executeWorkflow_mismatch g wf st0 t0 hv (by omega)]

/-- C4 (witness): the 3-cycle A → B → C → A.  The order is strictly shorter
than the node count and the run fails with a recorded validation error and no
dispatch. -/
theorem c4_witness :
    (getTopologicalOrder exWfCycle.nodes exWfCycle.connections).length <
      exWfCycle.nodes.length ∧
    (executeWorkflow echoOracle exWfCycle none initialExecState 0).success = false ∧
    (executeWorkflow echoOracle exWfCycle none initialExecState 0).dispatched = [] ∧
    (executeWorkflow echoOracle exWfCycle none initialExecState 0).errors ≠ [] ∧
    (∀ e ∈ (executeWorkflow echoOracle exWfCycle none initialExecState 0).errors,
      e.type = "validation") := by
  have h := c4_cycle_shortens_order_and_blocks_run echoOracle exWfCycle
    initialExecState 0 (by decide) (by decide)
    ⟨"A", ["B", "C"], List.Chain.cons (by decide)
      (List.Chain.cons (by decide) (List.Chain.cons (by decide) List.Chain.nil))⟩
  exact ⟨h.1, h.2.1, h.2.2.1, h.2.2.2.1, h.2.2.2.2.1⟩

end WorkflowEngine
